import Mathlib

/-!
Verification of the cursor-pagination subsystem of the `rust-kickstart`
repository: the pagination token codec (`src/pagination/mod.rs`), the
paginated read service (`src/user/services/read.rs`) and the error mapping
of the listing controller (`src/user/controller.rs`).

The Rust code is shallowly embedded: bytes are `Nat` values below 256,
`i32` values are `Int` with explicit range side conditions, and fallible
operations return `Except`/`Option`.  Third-party library behaviour that
the code relies on (the `base64` crate's URL_SAFE_NO_PAD engine, UTF-8
validation, `serde_json` for the two-field `CursorData` struct, and
`chrono`'s RFC 3339 serialization of `DateTime<Utc>`) is modelled
faithfully at the wire level below.
-/

namespace RustKickstart

/-! ### Base64 (URL-safe alphabet, no padding)

Models the `base64` crate's `general_purpose::URL_SAFE_NO_PAD` engine as
used by `PaginationToken::encode`/`decode`: the URL-safe alphabet `A-Z`,
`a-z`, `0-9`, `-`, `_`; no `=` padding on encode; decode rejects a
trailing group of one character and rejects non-zero trailing bits. -/

def b64alphabet : List Char :=
  String.data "ABCDEFGHIJKLMNOPQRSTUVWXYZabcdefghijklmnopqrstuvwxyz0123456789-_"

/-- Character for a 6-bit value. -/
def b64char (v : Nat) : Char := b64alphabet.getD v 'A'

def b64valAux (c : Char) : List Char → Nat → Option Nat
  | [], _ => none
  | a :: rest, i => if c = a then some i else b64valAux c rest (i + 1)

/-- 6-bit value of an alphabet character; `none` for characters outside
the URL-safe alphabet. -/
def b64val (c : Char) : Option Nat := b64valAux c b64alphabet 0

/-- Base64url encoding of a byte sequence, three bytes to four
characters, with the final group of one or two bytes emitted unpadded. -/
def b64encodeBytes : List Nat → List Char
  | [] => []
  | [a] => [b64char (a / 4), b64char (a % 4 * 16)]
  | [a, b] => [b64char (a / 4), b64char (a % 4 * 16 + b / 16), b64char (b % 16 * 4)]
  | a :: b :: c :: rest =>
      b64char (a / 4) :: b64char (a % 4 * 16 + b / 16) :: b64char (b % 16 * 4 + c / 64) ::
        b64char (c % 64) :: b64encodeBytes rest

/-- Base64url decoding, four characters to three bytes; a trailing group
of two or three characters yields one or two bytes and must have zero
trailing bits; a trailing group of one character is malformed. -/
def b64decodeChars : List Char → Option (List Nat)
  | [] => some []
  | [_] => none
  | [c1, c2] => do
      let v1 ← b64val c1
      let v2 ← b64val c2
      if v2 % 16 = 0 then some [v1 * 4 + v2 / 16] else none
  | [c1, c2, c3] => do
      let v1 ← b64val c1
      let v2 ← b64val c2
      let v3 ← b64val c3
      if v3 % 4 = 0 then some [v1 * 4 + v2 / 16, v2 % 16 * 16 + v3 / 4] else none
  | c1 :: c2 :: c3 :: c4 :: rest => do
      let v1 ← b64val c1
      let v2 ← b64val c2
      let v3 ← b64val c3
      let v4 ← b64val c4
      let tail ← b64decodeChars rest
      some ((v1 * 4 + v2 / 16) :: (v2 % 16 * 16 + v3 / 4) :: (v3 % 4 * 64 + v4) :: tail)

theorem b64val_b64char : ∀ v, v < 64 → b64val (b64char v) = some v := by decide

theorem b64decode_b64encode :
    ∀ l : List Nat, (∀ x ∈ l, x < 256) → b64decodeChars (b64encodeBytes l) = some l
  | [], _ => rfl
  | [a], h => by
      have ha : a < 256 := h a (by simp)
      simp only [b64encodeBytes, b64decodeChars,
        b64val_b64char _ (by omega : a / 4 < 64),
        b64val_b64char _ (by omega : a % 4 * 16 < 64), Option.bind_eq_bind, Option.some_bind]
      rw [if_pos (by omega)]
      have e1 : a / 4 * 4 + a % 4 * 16 / 16 = a := by omega
      rw [e1]
  | [a, b], h => by
      have ha : a < 256 := h a (by simp)
      have hb : b < 256 := h b (by simp)
      simp only [b64encodeBytes, b64decodeChars,
        b64val_b64char _ (by omega : a / 4 < 64),
        b64val_b64char _ (by omega : a % 4 * 16 + b / 16 < 64),
        b64val_b64char _ (by omega : b % 16 * 4 < 64), Option.bind_eq_bind, Option.some_bind]
      rw [if_pos (by omega)]
      have e1 : a / 4 * 4 + (a % 4 * 16 + b / 16) / 16 = a := by omega
      have e2 : (a % 4 * 16 + b / 16) % 16 * 16 + b % 16 * 4 / 4 = b := by omega
      rw [e1, e2]
  | a :: b :: c :: rest, h => by
      have ha : a < 256 := h a (by simp)
      have hb : b < 256 := h b (by simp)
      have hc : c < 256 := h c (by simp)
      have ih := b64decode_b64encode rest (fun x hx => h x (by simp [hx]))
      simp only [b64encodeBytes, b64decodeChars]
      simp only [b64val_b64char _ (by omega : a / 4 < 64),
        b64val_b64char _ (by omega : a % 4 * 16 + b / 16 < 64),
        b64val_b64char _ (by omega : b % 16 * 4 + c / 64 < 64),
        b64val_b64char _ (by omega : c % 64 < 64), ih, Option.bind_eq_bind, Option.some_bind]
      have e1 : a / 4 * 4 + (a % 4 * 16 + b / 16) / 16 = a := by omega
      have e2 : (a % 4 * 16 + b / 16) % 16 * 16 + (b % 16 * 4 + c / 64) / 4 = b := by omega
      have e3 : (b % 16 * 4 + c / 64) % 4 * 64 + c % 64 = c := by omega
      rw [e1, e2, e3]

/-! ### UTF-8

Models `String::from_utf8` validation and the UTF-8 byte representation
of Rust strings (`str::as_bytes`), used by the codec between the JSON
text and the base64 layer.  Strict UTF-8: overlong encodings, surrogate
code points and out-of-range lead bytes are rejected. -/

/-- UTF-8 bytes of a single scalar value. -/
def utf8EncodeChar (c : Char) : List Nat :=
  if c.toNat < 0x80 then [c.toNat]
  else if c.toNat < 0x800 then [0xC0 + c.toNat / 64, 0x80 + c.toNat % 64]
  else if c.toNat < 0x10000 then
    [0xE0 + c.toNat / 4096, 0x80 + c.toNat / 64 % 64, 0x80 + c.toNat % 64]
  else
    [0xF0 + c.toNat / 262144, 0x80 + c.toNat / 4096 % 64, 0x80 + c.toNat / 64 % 64,
      0x80 + c.toNat % 64]

/-- UTF-8 bytes of a character sequence. -/
def utf8Encode (l : List Char) : List Nat := (l.map utf8EncodeChar).flatten

/-- Decodes one code point from the front of a byte sequence, enforcing
strict UTF-8 (continuation bytes in `0x80..0xBF`, no overlong forms, no
surrogates, nothing above `0x10FFFF`). -/
def utf8DecodeOne : List Nat → Option (Char × List Nat)
  | [] => none
  | b1 :: rest =>
    if b1 < 0x80 then some (Char.ofNat b1, rest)
    else if b1 < 0xC2 then none
    else if b1 < 0xE0 then
      match rest with
      | b2 :: rest2 =>
        if 0x80 ≤ b2 ∧ b2 < 0xC0 then
          some (Char.ofNat ((b1 - 0xC0) * 64 + (b2 - 0x80)), rest2)
        else none
      | [] => none
    else if b1 < 0xF0 then
      match rest with
      | b2 :: b3 :: rest3 =>
        if 0x80 ≤ b2 ∧ b2 < 0xC0 ∧ 0x80 ≤ b3 ∧ b3 < 0xC0 ∧
            0x800 ≤ (b1 - 0xE0) * 4096 + (b2 - 0x80) * 64 + (b3 - 0x80) ∧
            ((b1 - 0xE0) * 4096 + (b2 - 0x80) * 64 + (b3 - 0x80) < 0xD800 ∨
              0xDFFF < (b1 - 0xE0) * 4096 + (b2 - 0x80) * 64 + (b3 - 0x80)) then
          some (Char.ofNat ((b1 - 0xE0) * 4096 + (b2 - 0x80) * 64 + (b3 - 0x80)), rest3)
        else none
      | _ => none
    else if b1 < 0xF5 then
      match rest with
      | b2 :: b3 :: b4 :: rest4 =>
        if 0x80 ≤ b2 ∧ b2 < 0xC0 ∧ 0x80 ≤ b3 ∧ b3 < 0xC0 ∧ 0x80 ≤ b4 ∧ b4 < 0xC0 ∧
            0x10000 ≤ (b1 - 0xF0) * 262144 + (b2 - 0x80) * 4096 + (b3 - 0x80) * 64 + (b4 - 0x80) ∧
            (b1 - 0xF0) * 262144 + (b2 - 0x80) * 4096 + (b3 - 0x80) * 64 + (b4 - 0x80) < 0x110000
            then
          some (Char.ofNat
            ((b1 - 0xF0) * 262144 + (b2 - 0x80) * 4096 + (b3 - 0x80) * 64 + (b4 - 0x80)), rest4)
        else none
      | _ => none
    else none

/-- Fuel-indexed UTF-8 decoding loop; each step consumes at least one
byte, so fuel equal to the byte count always suffices. -/
def utf8DecodeAux : Nat → List Nat → Option (List Char)
  | _, [] => some []
  | 0, _ :: _ => none
  | fuel + 1, b :: rest => do
      let s ← utf8DecodeOne (b :: rest)
      let cs ← utf8DecodeAux fuel s.2
      pure (s.1 :: cs)

/-- Strict UTF-8 decoding of a whole byte sequence
(`String::from_utf8`). -/
def utf8Decode (l : List Nat) : Option (List Char) := utf8DecodeAux l.length l

theorem char_toNat_valid (c : Char) :
    c.toNat < 0xD800 ∨ (0xDFFF < c.toNat ∧ c.toNat < 0x110000) := c.valid

theorem utf8EncodeChar_ne_nil (c : Char) : utf8EncodeChar c ≠ [] := by
  unfold utf8EncodeChar
  split <;> [skip; split] <;> [skip; skip; split] <;> simp

theorem utf8Encode_lt_256 : ∀ l : List Char, ∀ x ∈ utf8Encode l, x < 256
  | [], x, hx => by simp [utf8Encode] at hx
  | c :: l, x, hx => by
    have hv := char_toNat_valid c
    have ih := utf8Encode_lt_256 l
    simp only [utf8Encode, List.map_cons, List.flatten_cons, List.mem_append] at hx
    rcases hx with hx | hx
    · unfold utf8EncodeChar at hx
      split at hx <;> [skip; split at hx] <;> [skip; skip; split at hx] <;>
        simp only [List.mem_cons, List.mem_singleton, List.not_mem_nil, or_false] at hx <;>
        omega
    · exact ih x (by simpa [utf8Encode] using hx)

theorem utf8DecodeOne_encodeChar (c : Char) (rest : List Nat) :
    utf8DecodeOne (utf8EncodeChar c ++ rest) = some (c, rest) := by
  have hv := char_toNat_valid c
  by_cases h1 : c.toNat < 0x80
  · rw [show utf8EncodeChar c = [c.toNat] from by rw [utf8EncodeChar, if_pos h1]]
    simp only [List.cons_append, List.nil_append, utf8DecodeOne, if_pos h1]
    rw [Char.ofNat_toNat]
  · by_cases h2 : c.toNat < 0x800
    · rw [show utf8EncodeChar c = [0xC0 + c.toNat / 64, 0x80 + c.toNat % 64] from by
        rw [utf8EncodeChar, if_neg h1, if_pos h2]]
      simp only [List.cons_append, List.nil_append, utf8DecodeOne]
      rw [if_neg (by omega), if_neg (by omega), if_pos (by omega), if_pos (by omega)]
      rw [show (0xC0 + c.toNat / 64 - 0xC0) * 64 + (0x80 + c.toNat % 64 - 0x80) = c.toNat from by
        omega]
      rw [Char.ofNat_toNat]
    · by_cases h3 : c.toNat < 0x10000
      · rw [show utf8EncodeChar c =
            [0xE0 + c.toNat / 4096, 0x80 + c.toNat / 64 % 64, 0x80 + c.toNat % 64] from by
          rw [utf8EncodeChar, if_neg h1, if_neg h2, if_pos h3]]
        simp only [List.cons_append, List.nil_append, utf8DecodeOne]
        rw [if_neg (by omega), if_neg (by omega), if_neg (by omega), if_pos (by omega),
          if_pos (by omega)]
        rw [show (0xE0 + c.toNat / 4096 - 0xE0) * 4096 + (0x80 + c.toNat / 64 % 64 - 0x80) * 64 +
            (0x80 + c.toNat % 64 - 0x80) = c.toNat from by omega]
        rw [Char.ofNat_toNat]
      · rw [show utf8EncodeChar c = [0xF0 + c.toNat / 262144, 0x80 + c.toNat / 4096 % 64,
            0x80 + c.toNat / 64 % 64, 0x80 + c.toNat % 64] from by
          rw [utf8EncodeChar, if_neg h1, if_neg h2, if_neg h3]]
        simp only [List.cons_append, List.nil_append, utf8DecodeOne]
        rw [if_neg (by omega), if_neg (by omega), if_neg (by omega), if_neg (by omega),
          if_pos (by omega), if_pos (by omega)]
        rw [show (0xF0 + c.toNat / 262144 - 0xF0) * 262144 +
            (0x80 + c.toNat / 4096 % 64 - 0x80) * 4096 +
            (0x80 + c.toNat / 64 % 64 - 0x80) * 64 + (0x80 + c.toNat % 64 - 0x80) = c.toNat from by
          omega]
        rw [Char.ofNat_toNat]

theorem utf8DecodeAux_encode :
    ∀ (l : List Char) (fuel : Nat), (utf8Encode l).length ≤ fuel →
      utf8DecodeAux fuel (utf8Encode l) = some l
  | [], fuel, _ => by
      cases fuel <;> rfl
  | c :: l, fuel, hf => by
      have hjoin : utf8Encode (c :: l) = utf8EncodeChar c ++ utf8Encode l := by
        simp [utf8Encode]
      have hne : utf8EncodeChar c ≠ [] := utf8EncodeChar_ne_nil c
      have hlen : 1 ≤ (utf8EncodeChar c).length := by
        cases hec : utf8EncodeChar c with
        | nil => exact absurd hec hne
        | cons a t => simp
      rw [hjoin] at hf ⊢
      rw [List.length_append] at hf
      obtain ⟨fuel', rfl⟩ : ∃ f, fuel = f + 1 := ⟨fuel - 1, by omega⟩
      have ih := utf8DecodeAux_encode l fuel' (by omega)
      cases hec : utf8EncodeChar c with
      | nil => exact absurd hec hne
      | cons a t =>
        rw [hec] at hjoin
        have hstep : utf8DecodeOne (a :: (t ++ utf8Encode l)) = some (c, utf8Encode l) := by
          rw [show a :: (t ++ utf8Encode l) = utf8EncodeChar c ++ utf8Encode l from by
            rw [hec]; simp]
          exact utf8DecodeOne_encodeChar c (utf8Encode l)
        simp only [List.cons_append]
        calc utf8DecodeAux (fuel' + 1) (a :: (t ++ utf8Encode l))
            = Option.bind (utf8DecodeOne (a :: (t ++ utf8Encode l)))
                (fun s => Option.bind (utf8DecodeAux fuel' s.2)
                  (fun cs => some (s.1 :: cs))) := rfl
          _ = some (c :: l) := by
              rw [hstep]
              show Option.bind (utf8DecodeAux fuel' (utf8Encode l))
                (fun cs => some (c :: cs)) = some (c :: l)
              rw [ih]
              rfl

/-- `utf8Decode` inverts `utf8Encode`: the byte serialization of a
character sequence validates and decodes back to it. -/
theorem utf8Decode_utf8Encode (l : List Char) : utf8Decode (utf8Encode l) = some l :=
  utf8DecodeAux_encode l (utf8Encode l).length (Nat.le_refl _)

/-! ### Timestamps

Models `chrono::DateTime<Utc>` as a civil-time record, together with its
serde wire format: serialization is RFC 3339 with `SecondsFormat::AutoSi`
(0, 3, 6 or 9 fractional digits) and a trailing `Z`; deserialization
parses the RFC 3339 fields back and validates them.  The model covers
the four-digit-year RFC 3339 range with nanosecond precision and the
`Z` offset (the forms the serializer emits); chrono's leap-second
second `60` and explicit numeric offsets are additional decoder inputs
not modelled. -/

structure DateTimeUtc where
  year : Nat
  month : Nat
  day : Nat
  hour : Nat
  minute : Nat
  second : Nat
  nanos : Nat
deriving DecidableEq

def isLeapYear (y : Nat) : Bool := (y % 4 = 0 && y % 100 ≠ 0) || y % 400 = 0

def daysInMonth (y m : Nat) : Nat :=
  if m = 2 then (if isLeapYear y then 29 else 28)
  else if m = 4 ∨ m = 6 ∨ m = 9 ∨ m = 11 then 30
  else 31

/-- The calendar validity invariant of a civil timestamp, as `chrono`
enforces when building or parsing a `DateTime<Utc>`. -/
def DateTimeUtc.valid (t : DateTimeUtc) : Prop :=
  t.year ≤ 9999 ∧ 1 ≤ t.month ∧ t.month ≤ 12 ∧ 1 ≤ t.day ∧
    t.day ≤ daysInMonth t.year t.month ∧ t.hour ≤ 23 ∧ t.minute ≤ 59 ∧
    t.second ≤ 59 ∧ t.nanos < 1000000000

instance (t : DateTimeUtc) : Decidable t.valid := by
  unfold DateTimeUtc.valid
  infer_instance

/-! Decimal digit helpers shared by the RFC 3339 formatter/scanner and
the JSON number grammar. -/

def digitChar (d : Nat) : Char := Char.ofNat (48 + d)

def digitVal (c : Char) : Nat := c.toNat - 48

def isDigitCh (c : Char) : Bool := decide (48 ≤ c.toNat) && decide (c.toNat ≤ 57)

/-- The digits of `n`, zero-padded on the left to width `k`, most
significant first (as numeric values). -/
def padDigits : Nat → Nat → List Nat
  | 0, _ => []
  | k + 1, n => n / 10 ^ k % 10 :: padDigits k (n % 10 ^ k)

/-- Fixed-width zero-padded decimal rendering. -/
def padN (k n : Nat) : List Char := (padDigits k n).map digitChar

/-- Reads exactly `k` decimal digits, folding them onto `acc`. -/
def readFixed : Nat → Nat → List Char → Option (Nat × List Char)
  | 0, acc, rest => some (acc, rest)
  | k + 1, acc, c :: rest =>
      if isDigitCh c then readFixed k (acc * 10 + digitVal c) rest else none
  | _ + 1, _, [] => none

def expectChar (c : Char) : List Char → Option (List Char)
  | d :: rest => if d = c then some rest else none
  | [] => none

/-- Longest prefix of decimal digits (as numeric values) and the rest. -/
def takeDigits : List Char → List Nat × List Char
  | [] => ([], [])
  | c :: rest =>
    if isDigitCh c then
      ((takeDigits rest).1.cons (digitVal c), (takeDigits rest).2)
    else ([], c :: rest)

def digitsVal (l : List Nat) : Nat := l.foldl (fun a d => a * 10 + d) 0

/-- Nanoseconds denoted by a parsed fraction-digit sequence: the first
nine digits, scaled to nanosecond resolution. -/
def nanosOfDigits (ds : List Nat) : Nat :=
  digitsVal (ds.take 9) * 10 ^ (9 - min 9 ds.length)

/-- RFC 3339 `AutoSi` fraction: empty for zero nanoseconds, otherwise a
point and 3, 6 or 9 digits as precision requires. -/
def fmtNanos (nanos : Nat) : List Char :=
  if nanos = 0 then []
  else if nanos % 1000000 = 0 then '.' :: padN 3 (nanos / 1000000)
  else if nanos % 1000 = 0 then '.' :: padN 6 (nanos / 1000)
  else '.' :: padN 9 nanos

/-- The RFC 3339 serialization `chrono` emits for a `DateTime<Utc>`
under serde: `YYYY-MM-DDTHH:MM:SS[.fff...]Z`. -/
def fmtTs (t : DateTimeUtc) : List Char :=
  padN 4 t.year ++ ('-' :: (padN 2 t.month ++ ('-' :: (padN 2 t.day ++
    ('T' :: (padN 2 t.hour ++ (':' :: (padN 2 t.minute ++ (':' :: (padN 2 t.second ++
      (fmtNanos t.nanos ++ ['Z'])))))))))))

/-- Optional RFC 3339 second fraction: either absent, or a point
followed by at least one digit. -/
def parseFracOpt : List Char → Option (Nat × List Char)
  | [] => some (0, [])
  | c :: rest =>
    if c = '.' then
      match takeDigits rest with
      | ([], _) => none
      | (d :: ds, r) => some (nanosOfDigits (d :: ds), r)
    else some (0, c :: rest)

/-- RFC 3339 parsing of the timestamp string (the decoder side of
`chrono`'s serde format), validating the civil fields. -/
def parseTsChars (l : List Char) : Option DateTimeUtc := do
  let (y, r1) ← readFixed 4 0 l
  let r2 ← expectChar '-' r1
  let (mo, r3) ← readFixed 2 0 r2
  let r4 ← expectChar '-' r3
  let (d, r5) ← readFixed 2 0 r4
  let r6 ← expectChar 'T' r5
  let (h, r7) ← readFixed 2 0 r6
  let r8 ← expectChar ':' r7
  let (mi, r9) ← readFixed 2 0 r8
  let r10 ← expectChar ':' r9
  let (s, r11) ← readFixed 2 0 r10
  let (ns, r12) ← parseFracOpt r11
  match r12 with
  | ['Z'] =>
    let t : DateTimeUtc := ⟨y, mo, d, h, mi, s, ns⟩
    if t.valid then some t else none
  | _ => none

theorem isDigitCh_digitChar : ∀ d, d < 10 → isDigitCh (digitChar d) = true := by decide

theorem digitVal_digitChar : ∀ d, d < 10 → digitVal (digitChar d) = d := by decide

theorem padDigits_lt_10 : ∀ k n, ∀ d ∈ padDigits k n, d < 10
  | 0, n, d, hd => by simp [padDigits] at hd
  | k + 1, n, d, hd => by
      simp only [padDigits, List.mem_cons] at hd
      rcases hd with h | h
      · omega
      · exact padDigits_lt_10 k (n % 10 ^ k) d h

theorem padDigits_length : ∀ k n, (padDigits k n).length = k
  | 0, _ => rfl
  | k + 1, n => by simp [padDigits, padDigits_length k]

theorem readFixed_padN :
    ∀ k acc n, n < 10 ^ k → ∀ rest : List Char,
      readFixed k acc (padN k n ++ rest) = some (acc * 10 ^ k + n, rest)
  | 0, acc, n, hn, rest => by
      have hn0 : n = 0 := by omega
      subst hn0
      simp [padN, padDigits, readFixed]
  | k + 1, acc, n, hn, rest => by
      have hd : n / 10 ^ k % 10 < 10 := Nat.mod_lt _ (by norm_num)
      have hlt : n % 10 ^ k < 10 ^ k := Nat.mod_lt _ (Nat.pos_pow_of_pos k (by norm_num))
      rw [show padN (k + 1) n = digitChar (n / 10 ^ k % 10) :: padN k (n % 10 ^ k) from by
        simp [padN, padDigits]]
      simp only [List.cons_append, readFixed, isDigitCh_digitChar _ hd, if_pos,
        digitVal_digitChar _ hd]
      simp only [List.append_eq]
      rw [readFixed_padN k (acc * 10 + n / 10 ^ k % 10) (n % 10 ^ k) hlt rest]
      have hq : n / 10 ^ k < 10 := by
        rw [Nat.div_lt_iff_lt_mul (Nat.pos_pow_of_pos k (by norm_num))]
        calc n < 10 ^ (k + 1) := hn
          _ = 10 ^ k * 10 := by rw [pow_succ]
          _ ≤ 10 * 10 ^ k := by rw [Nat.mul_comm]
      have hmod : n / 10 ^ k % 10 = n / 10 ^ k := Nat.mod_eq_of_lt hq
      have hdm : 10 ^ k * (n / 10 ^ k) + n % 10 ^ k = n := Nat.div_add_mod n (10 ^ k)
      congr 1
      rw [hmod]
      rw [show acc * 10 ^ (k + 1) + n =
        acc * 10 ^ (k + 1) + (10 ^ k * (n / 10 ^ k) + n % 10 ^ k) from by rw [hdm]]
      rw [pow_succ]
      ring_nf

theorem expectChar_cons (c : Char) (rest : List Char) : expectChar c (c :: rest) = some rest := by
  simp [expectChar]

theorem takeDigits_map_digitChar :
    ∀ (ds : List Nat) (rest : List Char), (∀ d ∈ ds, d < 10) →
      (∀ c, rest.head? = some c → isDigitCh c = false) →
      takeDigits (ds.map digitChar ++ rest) = (ds, rest)
  | [], rest, _, hrest => by
      cases rest with
      | nil => rfl
      | cons c r =>
        simp only [List.map_nil, List.nil_append, takeDigits]
        rw [hrest c rfl]
        simp
  | d :: ds, rest, hds, hrest => by
      have hd : d < 10 := hds d (by simp)
      have ih := takeDigits_map_digitChar ds rest (fun x hx => hds x (by simp [hx])) hrest
      simp only [List.map_cons, List.cons_append, List.append_eq, takeDigits,
        isDigitCh_digitChar _ hd, if_pos, ih, digitVal_digitChar _ hd]

theorem foldl_padDigits :
    ∀ k acc n, n < 10 ^ k →
      List.foldl (fun a d => a * 10 + d) acc (padDigits k n) = acc * 10 ^ k + n
  | 0, acc, n, hn => by
      simp only [padDigits, List.foldl_nil, pow_zero]
      omega
  | k + 1, acc, n, hn => by
      have hlt : n % 10 ^ k < 10 ^ k := Nat.mod_lt _ (Nat.pos_pow_of_pos k (by norm_num))
      simp only [padDigits, List.foldl_cons]
      rw [foldl_padDigits k _ _ hlt]
      have hq : n / 10 ^ k < 10 := by
        rw [Nat.div_lt_iff_lt_mul (Nat.pos_pow_of_pos k (by norm_num))]
        calc n < 10 ^ (k + 1) := hn
          _ = 10 ^ k * 10 := by rw [pow_succ]
          _ ≤ 10 * 10 ^ k := by rw [Nat.mul_comm]
      have hmod : n / 10 ^ k % 10 = n / 10 ^ k := Nat.mod_eq_of_lt hq
      have hdm : 10 ^ k * (n / 10 ^ k) + n % 10 ^ k = n := Nat.div_add_mod n (10 ^ k)
      rw [hmod]
      rw [show acc * 10 ^ (k + 1) + n =
        acc * 10 ^ (k + 1) + (10 ^ k * (n / 10 ^ k) + n % 10 ^ k) from by rw [hdm]]
      rw [pow_succ]
      ring_nf

theorem digitsVal_padDigits (k n : Nat) (hn : n < 10 ^ k) : digitsVal (padDigits k n) = n := by
  unfold digitsVal
  rw [foldl_padDigits k 0 n hn]
  omega

theorem parseFracOpt_fmtNanos (nanos : Nat) (hn : nanos < 1000000000) :
    parseFracOpt (fmtNanos nanos ++ ['Z']) = some (nanos, ['Z']) := by
  have hZnd : ∀ c : Char, (['Z'] : List Char).head? = some c → isDigitCh c = false := by
    intro c hc
    simp only [List.head?] at hc
    cases hc
    decide
  unfold fmtNanos
  by_cases h0 : nanos = 0
  · rw [if_pos h0, h0]
    simp only [List.nil_append, parseFracOpt]
    rw [if_neg (by decide)]
  · rw [if_neg h0]
    by_cases h6 : nanos % 1000000 = 0
    · rw [if_pos h6]
      have hlen : (padDigits 3 (nanos / 1000000)).length = 3 := padDigits_length 3 _
      cases hpd : padDigits 3 (nanos / 1000000) with
      | nil => rw [hpd] at hlen; simp at hlen
      | cons d ds =>
        have hbound : ∀ x ∈ d :: ds, x < 10 := by rw [← hpd]; exact padDigits_lt_10 3 _
        have hval : digitsVal (d :: ds) = nanos / 1000000 := by
          rw [← hpd]; exact digitsVal_padDigits 3 _ (by omega)
        have hlen2 : (d :: ds).length = 3 := by rw [← hpd]; exact hlen
        simp only [padN, hpd, List.cons_append, parseFracOpt]
        simp only [if_true]
        rw [takeDigits_map_digitChar _ _ hbound hZnd]
        show some (nanosOfDigits (d :: ds), ['Z']) = some (nanos, ['Z'])
        unfold nanosOfDigits
        rw [List.take_of_length_le (by omega), hval, hlen2]
        rw [show (9 - min 9 3 : Nat) = 6 from rfl]
        rw [show (10 : Nat) ^ 6 = 1000000 from by norm_num]
        rw [show nanos / 1000000 * 1000000 = nanos from by omega]
    · rw [if_neg h6]
      by_cases h3 : nanos % 1000 = 0
      · rw [if_pos h3]
        have hlen : (padDigits 6 (nanos / 1000)).length = 6 := padDigits_length 6 _
        cases hpd : padDigits 6 (nanos / 1000) with
        | nil => rw [hpd] at hlen; simp at hlen
        | cons d ds =>
          have hbound : ∀ x ∈ d :: ds, x < 10 := by rw [← hpd]; exact padDigits_lt_10 6 _
          have hval : digitsVal (d :: ds) = nanos / 1000 := by
            rw [← hpd]; exact digitsVal_padDigits 6 _ (by omega)
          have hlen2 : (d :: ds).length = 6 := by rw [← hpd]; exact hlen
          simp only [padN, hpd, List.cons_append, parseFracOpt]
          simp only [if_true]
          rw [takeDigits_map_digitChar _ _ hbound hZnd]
          show some (nanosOfDigits (d :: ds), ['Z']) = some (nanos, ['Z'])
          unfold nanosOfDigits
          rw [List.take_of_length_le (by omega), hval, hlen2]
          rw [show (9 - min 9 6 : Nat) = 3 from rfl]
          rw [show (10 : Nat) ^ 3 = 1000 from by norm_num]
          rw [show nanos / 1000 * 1000 = nanos from by omega]
      · rw [if_neg h3]
        have hlen : (padDigits 9 nanos).length = 9 := padDigits_length 9 _
        cases hpd : padDigits 9 nanos with
        | nil => rw [hpd] at hlen; simp at hlen
        | cons d ds =>
          have hbound : ∀ x ∈ d :: ds, x < 10 := by rw [← hpd]; exact padDigits_lt_10 9 _
          have hval : digitsVal (d :: ds) = nanos := by
            rw [← hpd]; exact digitsVal_padDigits 9 _ (by omega)
          have hlen2 : (d :: ds).length = 9 := by rw [← hpd]; exact hlen
          simp only [padN, hpd, List.cons_append, parseFracOpt]
          simp only [if_true]
          rw [takeDigits_map_digitChar _ _ hbound hZnd]
          show some (nanosOfDigits (d :: ds), ['Z']) = some (nanos, ['Z'])
          unfold nanosOfDigits
          rw [List.take_of_length_le (by omega), hval, hlen2]
          rw [show (9 - min 9 9 : Nat) = 0 from rfl]
          rw [pow_zero, Nat.mul_one]

set_option maxHeartbeats 1600000 in
theorem parseTs_fmtTs (t : DateTimeUtc) (ht : t.valid) : parseTsChars (fmtTs t) = some t := by
  obtain ⟨hy, hm1, hm2, hd1, hd2, hh, hmi, hs, hns⟩ := ht
  have h4 : t.year < 10 ^ 4 := by omega
  have hmo : t.month < 10 ^ 2 := by omega
  have hda : t.day < 10 ^ 2 := by
    have : daysInMonth t.year t.month ≤ 31 := by
      unfold daysInMonth
      split <;> [split; split] <;> omega
    omega
  have hho : t.hour < 10 ^ 2 := by omega
  have hmin : t.minute < 10 ^ 2 := by omega
  have hsec : t.second < 10 ^ 2 := by omega
  simp only [parseTsChars, fmtTs, readFixed_padN 4 0 t.year h4,
    readFixed_padN 2 0 t.month hmo, readFixed_padN 2 0 t.day hda,
    readFixed_padN 2 0 t.hour hho, readFixed_padN 2 0 t.minute hmin,
    readFixed_padN 2 0 t.second hsec, expectChar_cons,
    parseFracOpt_fmtNanos t.nanos hns, Option.bind_eq_bind, Option.some_bind,
    Nat.zero_mul, Nat.zero_add]
  have hteq : DateTimeUtc.mk t.year t.month t.day t.hour t.minute t.second t.nanos = t := rfl
  rw [hteq]
  have hvalid : t.valid := ⟨hy, hm1, hm2, hd1, hd2, hh, hmi, hs, hns⟩
  rw [if_pos hvalid]

/-! ### JSON

Models `serde_json` as the codec uses it: `to_string` on the two-field
`CursorData` struct produces compact JSON with the fields in declaration
order (`id` then `timestamp`); `from_str::<CursorData>` parses a JSON
document and extracts the two fields, in any order, ignoring unknown
fields, rejecting duplicates, missing fields and ill-typed values.
Surrogate-pair `\u` escapes and serde's exact numeric edge behaviour
beyond the integer/float and `i32`-range distinctions are not modelled;
deeply nested documents exhaust the parser fuel, as `serde_json`'s own
recursion limit does. -/

def isWsCh (c : Char) : Bool := c = ' ' || c = '\t' || c = '\n' || c = '\r'

def skipWs : List Char → List Char
  | [] => []
  | c :: rest => if isWsCh c then skipWs rest else c :: rest

inductive Js where
  | jnull : Js
  | jbool : Bool → Js
  | jnumInt : Int → Js
  | jnumFloat : Js
  | jstr : List Char → Js
  | jarr : List Js → Js
  | jobj : List (List Char × Js) → Js

def hexVal (c : Char) : Option Nat :=
  if 48 ≤ c.toNat ∧ c.toNat ≤ 57 then some (c.toNat - 48)
  else if 97 ≤ c.toNat ∧ c.toNat ≤ 102 then some (c.toNat - 87)
  else if 65 ≤ c.toNat ∧ c.toNat ≤ 70 then some (c.toNat - 55)
  else none

/-- Body of a JSON string after the opening quote: content characters
up to the closing quote, with the standard escapes; raw control
characters are rejected.  The fuel argument is a termination artifact of
the model; one unit per consumed character always suffices. -/
def parseJsStringBody : Nat → List Char → Option (List Char × List Char)
  | 0, _ => none
  | _ + 1, [] => none
  | fuel + 1, c :: rest =>
    if c = '"' then some ([], rest)
    else if c = '\\' then
      match rest with
      | [] => none
      | e :: rest2 =>
        if e = '"' ∨ e = '\\' ∨ e = '/' then
          (parseJsStringBody fuel rest2).map (fun p => (e :: p.1, p.2))
        else if e = 'b' then (parseJsStringBody fuel rest2).map (fun p => (Char.ofNat 8 :: p.1, p.2))
        else if e = 'f' then (parseJsStringBody fuel rest2).map (fun p => (Char.ofNat 12 :: p.1, p.2))
        else if e = 'n' then (parseJsStringBody fuel rest2).map (fun p => (Char.ofNat 10 :: p.1, p.2))
        else if e = 'r' then (parseJsStringBody fuel rest2).map (fun p => (Char.ofNat 13 :: p.1, p.2))
        else if e = 't' then (parseJsStringBody fuel rest2).map (fun p => (Char.ofNat 9 :: p.1, p.2))
        else if e = 'u' then
          match rest2 with
          | h1 :: h2 :: h3 :: h4 :: rest3 => do
            let v1 ← hexVal h1
            let v2 ← hexVal h2
            let v3 ← hexVal h3
            let v4 ← hexVal h4
            let v := v1 * 4096 + v2 * 256 + v3 * 16 + v4
            if v < 0xD800 ∨ 0xDFFF < v then
              (parseJsStringBody fuel rest3).map (fun p => (Char.ofNat v :: p.1, p.2))
            else none
          | _ => none
        else none
    else if c.toNat < 0x20 then none
    else (parseJsStringBody fuel rest).map (fun p => (c :: p.1, p.2))

/-- Optional exponent part of a JSON number; reports whether one was
present. -/
def parseExpPart : List Char → Option (Bool × List Char)
  | [] => some (false, [])
  | c :: rest =>
    if c = 'e' ∨ c = 'E' then
      match rest with
      | [] => none
      | s :: r2 =>
        if s = '+' ∨ s = '-' then
          match takeDigits r2 with
          | ([], _) => none
          | (_ :: _, r3) => some (true, r3)
        else
          match takeDigits (s :: r2) with
          | ([], _) => none
          | (_ :: _, r3) => some (true, r3)
    else some (false, c :: rest)

/-- Optional fraction part of a JSON number; reports whether one was
present. -/
def parseFracPart : List Char → Option (Bool × List Char)
  | [] => some (false, [])
  | c :: rest =>
    if c = '.' then
      match takeDigits rest with
      | ([], _) => none
      | (_ :: _, r2) => some (true, r2)
    else some (false, c :: rest)

/-- JSON number after an optional leading minus: digits (no redundant
leading zero), optional fraction and exponent.  A fraction or exponent
makes the value a float, which deserializes into no integer field. -/
def parseNumAfterSign (neg : Bool) (l : List Char) : Option (Js × List Char) :=
  match takeDigits l with
  | ([], _) => none
  | (d :: ds, rest) =>
    if d = 0 ∧ ds ≠ [] then none
    else
      match parseFracPart rest with
      | none => none
      | some (hasFrac, r2) =>
        match parseExpPart r2 with
        | none => none
        | some (hasExp, r3) =>
          if hasFrac || hasExp then some (Js.jnumFloat, r3)
          else
            some (Js.jnumInt (if neg then -(Int.ofNat (digitsVal (d :: ds)))
              else Int.ofNat (digitsVal (d :: ds))), r3)

/-- Consumes an expected literal character sequence. -/
def stripLit : List Char → List Char → Option (List Char)
  | [], l => some l
  | p :: ps, c :: rest => if c = p then stripLit ps rest else none
  | _ :: _, [] => none

mutual

def parseVal : Nat → List Char → Option (Js × List Char)
  | 0, _ => none
  | fuel + 1, l =>
    match skipWs l with
    | [] => none
    | c :: rest =>
      if c = '"' then (parseJsStringBody fuel rest).map (fun p => (Js.jstr p.1, p.2))
      else if c = '\x7b' then parseObjBody fuel rest
      else if c = '[' then parseArrBody fuel rest
      else if c = 't' then (stripLit ['r', 'u', 'e'] rest).map (fun r => (Js.jbool true, r))
      else if c = 'f' then
        (stripLit ['a', 'l', 's', 'e'] rest).map (fun r => (Js.jbool false, r))
      else if c = 'n' then (stripLit ['u', 'l', 'l'] rest).map (fun r => (Js.jnull, r))
      else if c = '-' then parseNumAfterSign true rest
      else if isDigitCh c then parseNumAfterSign false (c :: rest)
      else none

def parseObjBody : Nat → List Char → Option (Js × List Char)
  | 0, _ => none
  | fuel + 1, l =>
    match skipWs l with
    | [] => none
    | c :: rest =>
      if c = '\x7d' then some (Js.jobj [], rest)
      else if c = '"' then
        match parseJsStringBody fuel rest with
        | none => none
        | some (key, r2) =>
          match skipWs r2 with
          | ':' :: r3 =>
            match parseVal fuel r3 with
            | none => none
            | some (v, r4) => parseObjRest fuel [(key, v)] r4
          | _ => none
      else none

def parseObjRest : Nat → List (List Char × Js) → List Char → Option (Js × List Char)
  | 0, _, _ => none
  | fuel + 1, acc, l =>
    match skipWs l with
    | ',' :: rest =>
      match skipWs rest with
      | '"' :: r1 =>
        match parseJsStringBody fuel r1 with
        | none => none
        | some (key, r2) =>
          match skipWs r2 with
          | ':' :: r3 =>
            match parseVal fuel r3 with
            | none => none
            | some (v, r4) => parseObjRest fuel (acc ++ [(key, v)]) r4
          | _ => none
      | _ => none
    | '\x7d' :: rest => some (Js.jobj acc, rest)
    | _ => none

def parseArrBody : Nat → List Char → Option (Js × List Char)
  | 0, _ => none
  | fuel + 1, l =>
    match skipWs l with
    | ']' :: rest => some (Js.jarr [], rest)
    | _ =>
      match parseVal fuel (skipWs l) with
      | none => none
      | some (v, r2) => parseArrRest fuel [v] r2

def parseArrRest : Nat → List Js → List Char → Option (Js × List Char)
  | 0, _, _ => none
  | fuel + 1, acc, l =>
    match skipWs l with
    | ',' :: rest =>
      match parseVal fuel rest with
      | none => none
      | some (v, r2) => parseArrRest fuel (acc ++ [v]) r2
    | ']' :: rest => some (Js.jarr acc, rest)
    | _ => none

end

/-- A whole JSON document (`serde_json::from_str`): one value, then
nothing but whitespace. -/
def parseJsonDoc (l : List Char) : Option Js :=
  match parseVal (2 * l.length + 8) l with
  | none => none
  | some (v, rest) => if skipWs rest = [] then some v else none

/-! ### Pagination token codec (`src/pagination/mod.rs`) -/

/-- Errors that can occur during token operations (`TokenError`). -/
inductive TokenError where
  | InvalidToken : TokenError
  | EncodingError : String → TokenError
deriving DecidableEq

/-- Fuel-indexed digit expansion; fuel bounding the value always
suffices since the value shrinks by a factor of ten each step. -/
def natDigitsAux : Nat → Nat → List Nat
  | 0, _ => []
  | fuel + 1, n => if n < 10 then [n] else natDigitsAux fuel (n / 10) ++ [n % 10]

/-- The digits of `n` in decimal, most significant first, no redundant
leading zeros (`[0]` for zero). -/
def natDigits (n : Nat) : List Nat := natDigitsAux (n + 1) n

/-- Decimal rendering of an `i32` value, as `serde_json` serializes
integers. -/
def intStr (i : Int) : List Char :=
  if i < 0 then '-' :: (natDigits (-i).toNat).map digitChar
  else (natDigits i.toNat).map digitChar

/-- The JSON text `serde_json::to_string` produces for `CursorData`:
compact, fields in declaration order (`id` then `timestamp`), the
timestamp rendered through `chrono`'s RFC 3339 serde format. -/
def jsonCursor (id : Int) (ts : DateTimeUtc) : List Char :=
  String.data "\x7b\"id\":" ++ (intStr id ++ (String.data ",\"timestamp\":\"" ++
    (fmtTs ts ++ String.data "\"\x7d")))

/-- The `i32` bounds, used where `serde` deserializes the `id` field. -/
def i32Min : Int := -2147483648

def i32Max : Int := 2147483647

/-- `serde_json::from_str::<CursorData>` applied to a parsed document:
the value must be an object holding exactly one `id` field carrying an
in-range integer and exactly one `timestamp` field carrying an RFC 3339
string; unknown fields are ignored, duplicates and missing or ill-typed
fields are errors. -/
def cursorFromJs : Js → Option (Int × DateTimeUtc)
  | Js.jobj fields =>
    match fields.filter (fun f => f.1 = String.data "id"),
        fields.filter (fun f => f.1 = String.data "timestamp") with
    | [(_, Js.jnumInt v)], [(_, Js.jstr s)] =>
      if i32Min ≤ v ∧ v ≤ i32Max then
        (parseTsChars s).map (fun t => (v, t))
      else none
    | _, _ => none
  | _ => none

/-- `PaginationToken::encode`: serialize `CursorData` to JSON and apply
URL-safe unpadded base64.  `serde_json::to_string` cannot fail on this
struct, so the `EncodingError` branch of the source is unreachable and
the result is always `Ok`. -/
def PaginationToken.encode (last_id : Int) (timestamp : DateTimeUtc) :
    Except TokenError String :=
  Except.ok (String.mk (b64encodeBytes (utf8Encode (jsonCursor last_id timestamp))))

/-- `PaginationToken::decode`: base64-decode, UTF-8-validate, JSON-parse
and extract the cursor fields; every failure in any layer is mapped to
`TokenError::InvalidToken`. -/
def PaginationToken.decode (token : String) : Except TokenError (Int × DateTimeUtc) :=
  match b64decodeChars token.data with
  | none => Except.error TokenError.InvalidToken
  | some bytes =>
    match utf8Decode bytes with
    | none => Except.error TokenError.InvalidToken
    | some chars =>
      match parseJsonDoc chars with
      | none => Except.error TokenError.InvalidToken
      | some js =>
        match cursorFromJs js with
        | none => Except.error TokenError.InvalidToken
        | some p => Except.ok p

instance {e a : Type} [DecidableEq e] [DecidableEq a] : DecidableEq (Except e a) :=
  fun x y =>
    match x, y with
    | Except.ok v, Except.ok w =>
      if h : v = w then Decidable.isTrue (by rw [h]) else Decidable.isFalse (by simp [h])
    | Except.error v, Except.error w =>
      if h : v = w then Decidable.isTrue (by rw [h]) else Decidable.isFalse (by simp [h])
    | Except.ok _, Except.error _ => Decidable.isFalse (by simp)
    | Except.error _, Except.ok _ => Decidable.isFalse (by simp)

/-- `PaginationToken::is_valid`: `decode(token).is_ok()`. -/
def PaginationToken.is_valid (token : String) : Bool :=
  match PaginationToken.decode token with
  | Except.ok _ => true
  | Except.error _ => false

/-! ### Round-trip of the canonical token wire format -/

theorem skipWs_not_ws {c : Char} (h : isWsCh c = false) (r : List Char) :
    skipWs (c :: r) = c :: r := by
  unfold skipWs
  rw [h]
  simp

theorem digitChar_plain :
    ∀ d, d < 10 → isWsCh (digitChar d) = false ∧ isDigitCh (digitChar d) = true ∧
      digitChar d ≠ '"' ∧ digitChar d ≠ '\\' ∧ 32 ≤ (digitChar d).toNat ∧
      digitChar d ≠ '\x7b' ∧ digitChar d ≠ '[' ∧ digitChar d ≠ 't' ∧
      digitChar d ≠ 'f' ∧ digitChar d ≠ 'n' ∧ digitChar d ≠ '-' ∧
      digitChar d ≠ '.' ∧ digitChar d ≠ 'e' ∧ digitChar d ≠ 'E' := by decide

/-- A character is "plain" when it can sit inside a JSON string body
with no escaping: not a quote, not a backslash, not a control
character. -/
def plainChar (c : Char) : Prop := c ≠ '"' ∧ c ≠ '\\' ∧ 32 ≤ c.toNat

instance (c : Char) : Decidable (plainChar c) := by
  unfold plainChar
  infer_instance

theorem parseJsStringBody_plain :
    ∀ (body : List Char) (fuel : Nat) (rest : List Char), (∀ c ∈ body, plainChar c) →
      body.length < fuel →
      parseJsStringBody fuel (body ++ '"' :: rest) = some (body, rest)
  | [], fuel, rest, _, hf => by
      obtain ⟨f, rfl⟩ : ∃ f, fuel = f + 1 := ⟨fuel - 1, by omega⟩
      simp only [List.nil_append]
      unfold parseJsStringBody
      rw [if_pos rfl]
  | c :: body, fuel, rest, h, hf => by
      obtain ⟨f, rfl⟩ : ∃ f, fuel = f + 1 := ⟨fuel - 1, by omega⟩
      obtain ⟨h1, h2, h3⟩ := h c (by simp)
      have hlen : body.length < f := by
        simp only [List.length_cons] at hf
        omega
      have ih := parseJsStringBody_plain body f rest (fun x hx => h x (by simp [hx])) hlen
      simp only [List.cons_append]
      unfold parseJsStringBody
      rw [if_neg h1, if_neg h2, if_neg (by omega), ih]
      rfl

theorem padN_mem : ∀ k n, ∀ c ∈ padN k n, ∃ d, d < 10 ∧ c = digitChar d := by
  intro k n c hc
  simp only [padN, List.mem_map] at hc
  obtain ⟨d, hd, rfl⟩ := hc
  exact ⟨d, padDigits_lt_10 k n d hd, rfl⟩

theorem fmtNanos_mem : ∀ ns, ∀ c ∈ fmtNanos ns, (∃ d, d < 10 ∧ c = digitChar d) ∨ c = '.' := by
  intro ns c hc
  unfold fmtNanos at hc
  split at hc
  · simp at hc
  · split at hc
    · rcases List.mem_cons.mp hc with h | h
      · exact Or.inr h
      · exact Or.inl (padN_mem 3 _ c h)
    · split at hc
      · rcases List.mem_cons.mp hc with h | h
        · exact Or.inr h
        · exact Or.inl (padN_mem 6 _ c h)
      · rcases List.mem_cons.mp hc with h | h
        · exact Or.inr h
        · exact Or.inl (padN_mem 9 _ c h)

theorem fmtTs_plain (t : DateTimeUtc) : ∀ c ∈ fmtTs t, plainChar c := by
  intro c hc
  unfold fmtTs at hc
  simp only [List.mem_append, List.mem_cons, List.mem_singleton] at hc
  have hdig : (∃ d, d < 10 ∧ c = digitChar d) → plainChar c := by
    rintro ⟨d, hd, rfl⟩
    obtain ⟨-, -, hq, hb, hge, -⟩ := digitChar_plain d hd
    exact ⟨hq, hb, hge⟩
  rcases hc with h | h | h | h | h | h | h | h | h | h | h | h | h
  · exact hdig (padN_mem 4 _ c h)
  · subst h; refine ⟨by decide, by decide, by decide⟩
  · exact hdig (padN_mem 2 _ c h)
  · subst h; exact ⟨by decide, by decide, by decide⟩
  · exact hdig (padN_mem 2 _ c h)
  · subst h; exact ⟨by decide, by decide, by decide⟩
  · exact hdig (padN_mem 2 _ c h)
  · subst h; exact ⟨by decide, by decide, by decide⟩
  · exact hdig (padN_mem 2 _ c h)
  · subst h; exact ⟨by decide, by decide, by decide⟩
  · exact hdig (padN_mem 2 _ c h)
  · rcases fmtNanos_mem _ c h with h2 | h2
    · exact hdig h2
    · subst h2; exact ⟨by decide, by decide, by decide⟩
  · rcases h with h | h
    · subst h; exact ⟨by decide, by decide, by decide⟩
    · simp at h

theorem digitsVal_append_single (l : List Nat) (d : Nat) :
    digitsVal (l ++ [d]) = digitsVal l * 10 + d := by
  simp [digitsVal, List.foldl_append]

theorem natDigitsAux_spec :
    ∀ fuel n, n < fuel →
      (∀ d ∈ natDigitsAux fuel n, d < 10) ∧ natDigitsAux fuel n ≠ [] ∧
        digitsVal (natDigitsAux fuel n) = n ∧
        (∀ d₀ ds, natDigitsAux fuel n = d₀ :: ds → (10 ≤ n → d₀ ≠ 0) ∧ (n < 10 → ds = []))
  | 0, n, h => absurd h (by omega)
  | fuel + 1, n, h => by
      by_cases h10 : n < 10
      · refine ⟨?_, ?_, ?_, ?_⟩
        · intro d hd
          simp only [natDigitsAux, if_pos h10, List.mem_singleton] at hd
          omega
        · simp [natDigitsAux, if_pos h10]
        · simp only [natDigitsAux, if_pos h10]
          simp [digitsVal]
        · intro d₀ ds hds
          simp only [natDigitsAux, if_pos h10] at hds
          cases hds
          exact ⟨fun h2 => absurd h2 (by omega), fun _ => rfl⟩
      · have hq : n / 10 < fuel := by omega
        obtain ⟨ihmem, ihne, ihval, ihhead⟩ := natDigitsAux_spec fuel (n / 10) hq
        have heq : natDigitsAux (fuel + 1) n = natDigitsAux fuel (n / 10) ++ [n % 10] := by
          simp [natDigitsAux, if_neg h10]
        refine ⟨?_, ?_, ?_, ?_⟩
        · intro d hd
          rw [heq] at hd
          rcases List.mem_append.mp hd with h2 | h2
          · exact ihmem d h2
          · simp only [List.mem_singleton] at h2
            omega
        · rw [heq]
          simp
        · rw [heq, digitsVal_append_single, ihval]
          omega
        · intro d₀ ds hds
          rw [heq] at hds
          cases hcons : natDigitsAux fuel (n / 10) with
          | nil => exact absurd hcons ihne
          | cons e es =>
            rw [hcons] at hds
            simp only [List.cons_append, List.cons.injEq] at hds
            obtain ⟨rfl, -⟩ := hds
            refine ⟨fun _ => ?_, fun h2 => absurd h2 h10⟩
            by_cases hq10 : n / 10 < 10
            · obtain ⟨-, h2⟩ := ihhead e es hcons
              have : natDigitsAux fuel (n / 10) = [n / 10] := by
                rw [hcons, h2 hq10]
                have := ihval
                rw [hcons, h2 hq10] at this
                simp only [digitsVal, List.foldl_cons, List.foldl_nil, Nat.zero_mul,
                  Nat.zero_add] at this
                rw [this]
              rw [hcons, h2 hq10] at this
              simp only [List.cons.injEq] at this
              omega
            · exact (ihhead e es hcons).1 (by omega)

theorem natDigits_lt10 (n : Nat) : ∀ d ∈ natDigits n, d < 10 :=
  (natDigitsAux_spec (n + 1) n (by omega)).1

theorem natDigits_ne_nil (n : Nat) : natDigits n ≠ [] :=
  (natDigitsAux_spec (n + 1) n (by omega)).2.1

theorem natDigits_val (n : Nat) : digitsVal (natDigits n) = n :=
  (natDigitsAux_spec (n + 1) n (by omega)).2.2.1

theorem natDigits_no_leading_zero (n d : Nat) (ds : List Nat) (h : natDigits n = d :: ds) :
    ¬(d = 0 ∧ ds ≠ []) := by
  obtain ⟨h1, h2⟩ := (natDigitsAux_spec (n + 1) n (by omega)).2.2.2 d ds h
  rintro ⟨rfl, hne⟩
  by_cases h10 : n < 10
  · exact hne (h2 h10)
  · exact h1 (by omega) rfl

theorem parseFracPart_comma (r : List Char) :
    parseFracPart (',' :: r) = some (false, ',' :: r) := rfl

theorem parseExpPart_comma (r : List Char) :
    parseExpPart (',' :: r) = some (false, ',' :: r) := rfl

theorem parseNum_natDigits (neg : Bool) (n : Nat) (r : List Char) :
    parseNumAfterSign neg ((natDigits n).map digitChar ++ (',' :: r)) =
      some (Js.jnumInt (if neg then -(n : Int) else (n : Int)), ',' :: r) := by
  have hnd : ∀ c : Char, ((',' :: r) : List Char).head? = some c → isDigitCh c = false := by
    intro c hc
    simp only [List.head?] at hc
    cases hc
    decide
  unfold parseNumAfterSign
  rw [takeDigits_map_digitChar _ _ (natDigits_lt10 n) hnd]
  rcases hnd2 : natDigits n with - | ⟨d, ds⟩
  · exact absurd hnd2 (natDigits_ne_nil n)
  · show (if d = 0 ∧ ds ≠ [] then none
        else some (Js.jnumInt (if neg then -(Int.ofNat (digitsVal (d :: ds)))
          else Int.ofNat (digitsVal (d :: ds))), ',' :: r)) = _
    rw [if_neg (natDigits_no_leading_zero n d ds hnd2)]
    have hv : digitsVal (d :: ds) = n := by rw [← hnd2]; exact natDigits_val n
    rw [hv]
    rfl

theorem parseVal_minus (f : Nat) (r : List Char) :
    parseVal (f + 1) ('-' :: r) = parseNumAfterSign true r := rfl

theorem parseVal_digit (f d : Nat) (hd : d < 10) (r : List Char) :
    parseVal (f + 1) (digitChar d :: r) = parseNumAfterSign false (digitChar d :: r) := by
  obtain ⟨hws, hisd, hq, hb, hge, hbrace, hbrk, ht, hf, hn, hminus, -, -, -⟩ :=
    digitChar_plain d hd
  unfold parseVal
  rw [skipWs_not_ws hws]
  show (if digitChar d = '"' then (parseJsStringBody f r).map (fun p => (Js.jstr p.1, p.2))
      else if digitChar d = '\x7b' then parseObjBody f r
      else if digitChar d = '[' then parseArrBody f r
      else if digitChar d = 't' then
        (stripLit ['r', 'u', 'e'] r).map (fun r2 => (Js.jbool true, r2))
      else if digitChar d = 'f' then
        (stripLit ['a', 'l', 's', 'e'] r).map (fun r2 => (Js.jbool false, r2))
      else if digitChar d = 'n' then (stripLit ['u', 'l', 'l'] r).map (fun r2 => (Js.jnull, r2))
      else if digitChar d = '-' then parseNumAfterSign true r
      else if isDigitCh (digitChar d) then parseNumAfterSign false (digitChar d :: r)
      else none) = _
  rw [if_neg hq, if_neg hbrace, if_neg hbrk, if_neg ht, if_neg hf, if_neg hn, if_neg hminus,
    if_pos hisd]

theorem parseVal_intStr (f : Nat) (i : Int) (r : List Char) :
    parseVal (f + 1) (intStr i ++ (',' :: r)) = some (Js.jnumInt i, ',' :: r) := by
  unfold intStr
  by_cases hi : i < 0
  · rw [if_pos hi]
    simp only [List.cons_append]
    rw [parseVal_minus, parseNum_natDigits true (-i).toNat r]
    have hval : -(((-i).toNat : Nat) : Int) = i := by omega
    rw [if_pos rfl, hval]
  · rw [if_neg hi]
    rcases hnd : natDigits i.toNat with - | ⟨d, ds⟩
    · exact absurd hnd (natDigits_ne_nil _)
    · have hd : d < 10 := natDigits_lt10 _ d (by rw [hnd]; simp)
      simp only [List.map_cons, List.cons_append]
      rw [parseVal_digit f d hd]
      rw [show digitChar d :: (List.map digitChar ds ++ (',' :: r)) =
        (natDigits i.toNat).map digitChar ++ (',' :: r) from by rw [hnd]; simp]
      rw [parseNum_natDigits false i.toNat r]
      have hval : ((i.toNat : Nat) : Int) = i := by omega
      rw [if_neg (by decide), hval]

/-- The parsed JSON document of a canonical token payload. -/
def cursorJs (id : Int) (ts : DateTimeUtc) : Js :=
  Js.jobj [(String.data "id", Js.jnumInt id), (String.data "timestamp", Js.jstr (fmtTs ts))]

theorem jsonCursor_cons (id : Int) (ts : DateTimeUtc) :
    jsonCursor id ts = '\x7b' :: '"' :: 'i' :: 'd' :: '"' :: ':' ::
      (intStr id ++ (',' :: '"' :: 't' :: 'i' :: 'm' :: 'e' :: 's' :: 't' :: 'a' :: 'm' :: 'p' ::
        '"' :: ':' :: '"' :: (fmtTs ts ++ ('"' :: '\x7d' :: [])))) := rfl

theorem parseVal_obj (f : Nat) (r : List Char) :
    parseVal (f + 1) ('\x7b' :: r) = parseObjBody f r := rfl

theorem parseVal_quote (f : Nat) (r : List Char) :
    parseVal (f + 1) ('"' :: r) =
      (parseJsStringBody f r).map (fun p => (Js.jstr p.1, p.2)) := rfl

theorem parseObjBody_idKey (f : Nat) (hf : 3 ≤ f) (r : List Char) :
    parseObjBody (f + 1) ('"' :: 'i' :: 'd' :: '"' :: ':' :: r) =
      match parseVal f r with
      | none => none
      | some (v, r4) => parseObjRest f [(['i', 'd'], v)] r4 := by
  show (match parseJsStringBody f ('i' :: 'd' :: '"' :: ':' :: r) with
      | none => none
      | some (key, r2) =>
        match skipWs r2 with
        | ':' :: r3 =>
          match parseVal f r3 with
          | none => none
          | some (v, r4) => parseObjRest f [(key, v)] r4
        | _ => none) = _
  rw [show ('i' :: 'd' :: '"' :: ':' :: r : List Char) = ['i', 'd'] ++ '"' :: (':' :: r) from rfl]
  rw [parseJsStringBody_plain ['i', 'd'] f (':' :: r) (by decide)
    (by have : (['i', 'd'] : List Char).length = 2 := rfl; omega)]
  rfl

theorem parseObjRest_tsKey (f : Nat) (hf : 10 ≤ f) (acc : List (List Char × Js))
    (r : List Char) :
    parseObjRest (f + 1) acc
        (',' :: '"' :: 't' :: 'i' :: 'm' :: 'e' :: 's' :: 't' :: 'a' :: 'm' :: 'p' ::
          '"' :: ':' :: r) =
      match parseVal f r with
      | none => none
      | some (v, r4) =>
        parseObjRest f (acc ++ [(['t', 'i', 'm', 'e', 's', 't', 'a', 'm', 'p'], v)]) r4 := by
  show (match parseJsStringBody f
        ('t' :: 'i' :: 'm' :: 'e' :: 's' :: 't' :: 'a' :: 'm' :: 'p' :: '"' :: ':' :: r) with
      | none => none
      | some (key, r2) =>
        match skipWs r2 with
        | ':' :: r3 =>
          match parseVal f r3 with
          | none => none
          | some (v, r4) => parseObjRest f (acc ++ [(key, v)]) r4
        | _ => none) = _
  rw [show ('t' :: 'i' :: 'm' :: 'e' :: 's' :: 't' :: 'a' :: 'm' :: 'p' :: '"' :: ':' :: r :
      List Char) = ['t', 'i', 'm', 'e', 's', 't', 'a', 'm', 'p'] ++ '"' :: (':' :: r) from rfl]
  rw [parseJsStringBody_plain ['t', 'i', 'm', 'e', 's', 't', 'a', 'm', 'p'] f (':' :: r)
    (by decide)
    (by have : (['t', 'i', 'm', 'e', 's', 't', 'a', 'm', 'p'] : List Char).length = 9 := rfl
        omega)]
  rfl

theorem parseObjRest_close (f : Nat) (acc : List (List Char × Js)) (r : List Char) :
    parseObjRest (f + 1) acc ('\x7d' :: r) = some (Js.jobj acc, r) := rfl

theorem padN_length (k n : Nat) : (padN k n).length = k := by
  simp [padN, padDigits_length]

theorem fmtNanos_length_le (ns : Nat) : (fmtNanos ns).length ≤ 10 := by
  unfold fmtNanos
  split
  · simp
  · split
    · simp [padN_length]
    · split
      · simp [padN_length]
      · simp [padN_length]

theorem fmtTs_length_le (t : DateTimeUtc) : (fmtTs t).length ≤ 30 := by
  have := fmtNanos_length_le t.nanos
  unfold fmtTs
  simp [List.length_append, padN_length]
  omega

theorem parseVal_jsonCursor (fuel : Nat) (hfuel : 35 ≤ fuel) (id : Int) (ts : DateTimeUtc) :
    parseVal fuel (jsonCursor id ts) = some (cursorJs id ts, []) := by
  obtain ⟨f, hfge, rfl⟩ : ∃ f, 31 ≤ f ∧ fuel = f + 1 + 1 + 1 + 1 :=
    ⟨fuel - 4, by omega, by omega⟩
  rw [jsonCursor_cons, parseVal_obj, parseObjBody_idKey (f + 1 + 1) (by omega)]
  simp only [parseVal_intStr, parseObjRest_tsKey (f + 1) (by omega), parseVal_quote,
    parseJsStringBody_plain (fmtTs ts) f ('\x7d' :: []) (fmtTs_plain ts)
      (by have := fmtTs_length_le ts; omega),
    Option.map_some', parseObjRest_close, List.singleton_append, List.cons_append,
    List.nil_append]
  rfl

theorem parseJsonDoc_jsonCursor (id : Int) (ts : DateTimeUtc) :
    parseJsonDoc (jsonCursor id ts) = some (cursorJs id ts) := by
  have hlen : 14 ≤ (jsonCursor id ts).length := by
    rw [jsonCursor_cons]
    simp only [List.length_cons, List.length_append]
    omega
  unfold parseJsonDoc
  rw [parseVal_jsonCursor (2 * (jsonCursor id ts).length + 8) (by omega) id ts]
  rfl

/-- Shared round-trip core: decoding any token produced by `encode` on a
valid cursor recovers the cursor exactly. -/
theorem decode_encode_core (id : Int) (ts : DateTimeUtc) (tok : String)
    (hid : i32Min ≤ id ∧ id ≤ i32Max) (hts : ts.valid)
    (henc : PaginationToken.encode id ts = Except.ok tok) :
    PaginationToken.decode tok = Except.ok (id, ts) := by
  have htok : tok = String.mk (b64encodeBytes (utf8Encode (jsonCursor id ts))) := by
    unfold PaginationToken.encode at henc
    cases henc
    rfl
  subst htok
  unfold PaginationToken.decode
  rw [show (String.mk (b64encodeBytes (utf8Encode (jsonCursor id ts)))).data =
    b64encodeBytes (utf8Encode (jsonCursor id ts)) from rfl]
  rw [b64decode_b64encode _ (utf8Encode_lt_256 _)]
  show (match utf8Decode (utf8Encode (jsonCursor id ts)) with
    | none => Except.error TokenError.InvalidToken
    | some chars =>
      match parseJsonDoc chars with
      | none => Except.error TokenError.InvalidToken
      | some js =>
        match cursorFromJs js with
        | none => Except.error TokenError.InvalidToken
        | some p => Except.ok p) = _
  rw [utf8Decode_utf8Encode]
  show (match parseJsonDoc (jsonCursor id ts) with
    | none => Except.error TokenError.InvalidToken
    | some js =>
      match cursorFromJs js with
      | none => Except.error TokenError.InvalidToken
      | some p => Except.ok p) = _
  rw [parseJsonDoc_jsonCursor]
  show (match cursorFromJs (cursorJs id ts) with
    | none => Except.error TokenError.InvalidToken
    | some p => Except.ok p) = _
  have hcf : cursorFromJs (cursorJs id ts) = some (id, ts) := by
    show (if i32Min ≤ id ∧ id ≤ i32Max then
      (parseTsChars (fmtTs ts)).map (fun t => (id, t)) else none) = some (id, ts)
    rw [if_pos hid, parseTs_fmtTs ts hts]
    rfl
  rw [hcf]

/-! ### User domain, record store and paginated read service

`src/user/services/read.rs` (`ReadUserService::get_users_paginated`) and
the error mapping of `src/user/controller.rs`
(`get_all_users_handler`). -/

/-- Domain errors (`UserError` in `src/user/domain.rs`).  The snapshot
of `domain.rs` predates the pagination feature; the `InvalidToken`
variant is the one `read.rs` and `controller.rs` use.  The payload of
`ValidationError` is irrelevant here and carried as message/field
pairs. -/
inductive UserError where
  | ValidationFailed : List (String × Option String) → UserError
  | NotFound : UserError
  | DatabaseError : String → UserError
  | InvalidToken : UserError
deriving DecidableEq

/-- The user row as the pagination service reads it.  Modelled from the
spec: the snapshot's `domain.rs` `User` lacks `created_at`, but
`read.rs` encodes `user.created_at` into the next token and §3 of the
spec makes `(created_at, id)` the composite ordering key, so the row
carries both, plus the domain payload fields. -/
structure User where
  id : Int
  name : String
  age : Int
  created_at : DateTimeUtc
deriving DecidableEq

/-- Query parameters of the listing endpoint (`PaginationParams`):
optional opaque token and optional `i32` limit, per the fields read by
`read.rs` and the endpoint documentation in `controller.rs`. -/
structure PaginationParams where
  next_token : Option String
  limit : Option Int
deriving DecidableEq

/-- The page payload (`PaginatedUsersResponse`) exactly as `read.rs`
assembles it. -/
structure PaginatedUsersResponse where
  users : List User
  next_token : Option String
  has_more : Bool
  count : Nat
deriving DecidableEq

/-- Well-formedness of a stored row: the `i32` id in range and a valid
timestamp, as the database guarantees. -/
def User.wellFormed (u : User) : Prop :=
  i32Min ≤ u.id ∧ u.id ≤ i32Max ∧ u.created_at.valid

instance (u : User) : Decidable u.wellFormed := by
  unfold User.wellFormed
  infer_instance

/-- Packed chronological key of a civil timestamp: strictly monotone in
the field-lexicographic (i.e. chronological) order on valid
timestamps. -/
def tsKey (t : DateTimeUtc) : Nat :=
  ((((t.year * 13 + t.month) * 32 + t.day) * 24 + t.hour) * 60 + t.minute) * 61 * 2000000000 +
    t.second * 2000000000 + t.nanos

/-- The keyset filter of §4.2: a record is a candidate when it is
strictly after the cursor under `(created_at, id)`. -/
def afterCursor (c : Int × DateTimeUtc) (u : User) : Bool :=
  decide (tsKey c.2 < tsKey u.created_at) ||
    (decide (tsKey u.created_at = tsKey c.2) && decide (c.1 < u.id))

/-- The composite ordering `(created_at ASC, id ASC)` of §4.2. -/
def recLe (a b : User) : Bool :=
  decide (tsKey a.created_at < tsKey b.created_at) ||
    (decide (tsKey a.created_at = tsKey b.created_at) && decide (a.id ≤ b.id))

/-- The ordered candidate set of a page request: records after the
cursor (all records when there is none), in `(created_at ASC, id ASC)`
order. -/
def candidates (store : List User) (cursor : Option (Int × DateTimeUtc)) : List User :=
  (match cursor with
    | some c => store.filter (afterCursor c)
    | none => store).mergeSort recLe

/-- Modelled from the spec: the Record Store fetch
`repository.find_paginated(cursor, n)`.  The repository method is
missing from the source snapshot (only its caller in `read.rs` is
present), so it is modelled from §4.2: candidates are filtered by the
keyset predicate when a cursor is present (all records otherwise),
totally ordered by `(created_at ASC, id ASC)` and limited to the first
`n` rows. -/
def find_paginated (store : List User) (cursor : Option (Int × DateTimeUtc)) (n : Int) :
    Except UserError (List User) :=
  Except.ok ((candidates store cursor).take n.toNat)

/-- The effective page size: `params.limit.unwrap_or(200).min(200).max(1)`
from `read.rs`. -/
def effLimit (l : Option Int) : Int := max (min (l.getD 200) 200) 1

/-- `ReadUserService::get_users_paginated`, abstracted over the cursor
encoder and the record-store fetch exactly as the service body uses
them (the service instantiates the encoder with
`PaginationToken::encode` and the fetch with the repository's
`find_paginated`): clamp the limit, decode the token (mapping failures
to `InvalidToken`), over-fetch `limit + 1` rows, pop the sentinel, and
emit the next token from the last remaining row. -/
def get_users_paginated_core
    (enc : Int → DateTimeUtc → Except TokenError String)
    (fetch : Option (Int × DateTimeUtc) → Int → Except UserError (List User))
    (params : PaginationParams) : Except UserError PaginatedUsersResponse :=
  let limit : Int := effLimit params.limit
  match (match params.next_token with
    | some token =>
      match PaginationToken.decode token with
      | Except.ok c => Except.ok (some c)
      | Except.error _ => Except.error UserError.InvalidToken
    | none => Except.ok none : Except UserError (Option (Int × DateTimeUtc))) with
  | Except.error e => Except.error e
  | Except.ok cursor =>
    match fetch cursor (limit + 1) with
    | Except.error e => Except.error e
    | Except.ok users =>
      let has_more := decide (users.length > limit.toNat)
      let result_users := if has_more then users.dropLast else users
      let next_token :=
        if has_more then
          (result_users.getLast?.map (fun u =>
            match enc u.id u.created_at with
            | Except.ok t => t
            | Except.error _ => "")).filter (fun t => t ≠ "")
        else none
      Except.ok (PaginatedUsersResponse.mk result_users next_token has_more
        result_users.length)

/-- The paginated read service over a concrete record store. -/
def get_users_paginated (store : List User) (params : PaginationParams) :
    Except UserError PaginatedUsersResponse :=
  get_users_paginated_core PaginationToken.encode (find_paginated store) params

/-- HTTP status mapping of `get_all_users_handler` in
`src/user/controller.rs`: 200 on success, 400 for `InvalidToken`, 500
for `DatabaseError`, 500 for anything else. -/
def get_all_users_status (result : Except UserError PaginatedUsersResponse) : Nat :=
  match result with
  | Except.ok _ => 200
  | Except.error UserError.InvalidToken => 400
  | Except.error (UserError.DatabaseError _) => 500
  | Except.error _ => 500

/-- One run of the listing loop: request a page, emit its records, and
continue with the returned `next_token` while `has_more` holds. -/
def paginateGo (store : List User) (lim : Option Int) : Nat → Option String → List User
  | 0, _ => []
  | fuel + 1, token =>
    match get_users_paginated store { next_token := token, limit := lim } with
    | Except.error _ => []
    | Except.ok resp =>
      resp.users ++ (if resp.has_more then
        match resp.next_token with
        | some t => paginateGo store lim fuel (some t)
        | none => []
      else [])

/-- Paginating from no token until `has_more` is false, with enough
loop iterations for any store. -/
def paginateAll (store : List User) (lim : Option Int) : List User :=
  paginateGo store lim (store.length + 1) none

/-! ### Behaviour of a single successful page -/

/-- The relation between request parameters and the cursor the service
derives from them: no token means no cursor, and a token that decodes
means that cursor. -/
def cursorFor (params : PaginationParams) (cursor : Option (Int × DateTimeUtc)) : Prop :=
  (params.next_token = none ∧ cursor = none) ∨
    (∃ tok c, params.next_token = some tok ∧ PaginationToken.decode tok = Except.ok c ∧
      cursor = some c)

theorem core_ok_shape (enc : Int → DateTimeUtc → Except TokenError String)
    (fetch : Option (Int × DateTimeUtc) → Int → Except UserError (List User))
    (params : PaginationParams) (cursor : Option (Int × DateTimeUtc)) (users : List User)
    (hcur : cursorFor params cursor)
    (hf : fetch cursor (effLimit params.limit + 1) = Except.ok users) :
    get_users_paginated_core enc fetch params =
      Except.ok (PaginatedUsersResponse.mk
        (if decide (users.length > (effLimit params.limit).toNat) = true
          then users.dropLast else users)
        (if decide (users.length > (effLimit params.limit).toNat) = true then
          ((if decide (users.length > (effLimit params.limit).toNat) = true
            then users.dropLast else users).getLast?.map (fun u =>
              match enc u.id u.created_at with
              | Except.ok t => t
              | Except.error _ => "")).filter (fun t => t ≠ "")
         else none)
        (decide (users.length > (effLimit params.limit).toNat))
        (if decide (users.length > (effLimit params.limit).toNat) = true
          then users.dropLast else users).length) := by
  rcases hcur with ⟨htok, rfl⟩ | ⟨tok, c, htok, hdec, rfl⟩
  · simp only [get_users_paginated_core, htok, hf]
  · simp only [get_users_paginated_core, htok, hdec, hf]

theorem recLe_total (a b : User) : (recLe a b || recLe b a) = true := by
  simp only [recLe, Bool.or_eq_true, Bool.and_eq_true, decide_eq_true_iff]
  omega

theorem recLe_trans (a b c : User) (h1 : recLe a b = true) (h2 : recLe b c = true) :
    recLe a c = true := by
  simp only [recLe, Bool.or_eq_true, Bool.and_eq_true, decide_eq_true_iff] at h1 h2 ⊢
  omega

theorem candidates_sorted (store : List User) (cursor : Option (Int × DateTimeUtc)) :
    List.Pairwise (fun a b => recLe a b = true) (candidates store cursor) := by
  unfold candidates
  exact List.sorted_mergeSort (fun a b c => recLe_trans a b c) recLe_total _

theorem mem_candidates {u : User} {store : List User} {cursor : Option (Int × DateTimeUtc)}
    (h : u ∈ candidates store cursor) : u ∈ store := by
  unfold candidates at h
  rw [List.mem_mergeSort] at h
  rcases cursor with - | c
  · exact h
  · exact List.mem_of_mem_filter h

theorem b64encodeBytes_ne_nil (a : Nat) (l : List Nat) : b64encodeBytes (a :: l) ≠ [] := by
  rcases l with - | ⟨b, l⟩
  · simp [b64encodeBytes]
  · rcases l with - | ⟨c, l⟩ <;> simp [b64encodeBytes]

theorem encode_token_ne_empty (id : Int) (ts : DateTimeUtc) (tok : String)
    (henc : PaginationToken.encode id ts = Except.ok tok) : tok ≠ "" := by
  unfold PaginationToken.encode at henc
  injection henc with h
  subst h
  intro hcon
  have hdata : b64encodeBytes (utf8Encode (jsonCursor id ts)) = [] := by
    have := congrArg String.data hcon
    exact this
  have hjson : jsonCursor id ts = '\x7b' :: ('"' :: 'i' :: 'd' :: '"' :: ':' ::
      (intStr id ++ (',' :: '"' :: 't' :: 'i' :: 'm' :: 'e' :: 's' :: 't' :: 'a' :: 'm' :: 'p' ::
        '"' :: ':' :: '"' :: (fmtTs ts ++ ('"' :: '\x7d' :: []))))) := jsonCursor_cons id ts
  have hu : utf8Encode (jsonCursor id ts) =
      utf8EncodeChar '\x7b' ++ utf8Encode ('"' :: 'i' :: 'd' :: '"' :: ':' ::
        (intStr id ++ (',' :: '"' :: 't' :: 'i' :: 'm' :: 'e' :: 's' :: 't' :: 'a' :: 'm' :: 'p' ::
          '"' :: ':' :: '"' :: (fmtTs ts ++ ('"' :: '\x7d' :: []))))) := by
    rw [hjson]
    simp [utf8Encode]
  rw [hu] at hdata
  rw [show utf8EncodeChar '\x7b' = [123] from rfl] at hdata
  exact b64encodeBytes_ne_nil _ _ hdata

/-! ### Claim theorems -/

theorem effLimit_bounds (l : Option Int) : 1 ≤ effLimit l ∧ effLimit l ≤ 200 := by
  rcases l with - | x <;> simp only [effLimit, Option.getD_some, Option.getD_none] <;> omega

/-- Claim C3: with a cursor, the fetched candidates are exactly the
records strictly greater than the cursor under the composite ordering,
totally ordered by `(created_at ASC, id ASC)`; without a cursor every
record of the store is a candidate. -/
theorem C3_keyset_filter (store : List User) (c : Int × DateTimeUtc) (n : Int) :
    (∀ l, find_paginated store (some c) n = Except.ok l →
      (∀ u ∈ l, afterCursor c u = true) ∧
        List.Pairwise (fun a b => recLe a b = true) l) ∧
    (∀ l, find_paginated store none n = Except.ok l →
      List.Pairwise (fun a b => recLe a b = true) l ∧ (∀ u ∈ l, u ∈ store) ∧
        (store.length ≤ n.toNat → ∀ u ∈ store, u ∈ l)) := by
  constructor
  · intro l hl
    have hleq : l = (candidates store (some c)).take n.toNat := by
      unfold find_paginated at hl
      exact (Except.ok.inj hl).symm
    subst hleq
    constructor
    · intro u hu
      have hmem : u ∈ candidates store (some c) := List.mem_of_mem_take hu
      unfold candidates at hmem
      rw [List.mem_mergeSort] at hmem
      exact List.of_mem_filter hmem
    · exact (candidates_sorted store (some c)).sublist (List.take_sublist _ _)
  · intro l hl
    have hleq : l = (candidates store none).take n.toNat := by
      unfold find_paginated at hl
      exact (Except.ok.inj hl).symm
    subst hleq
    refine ⟨(candidates_sorted store none).sublist (List.take_sublist _ _), ?_, ?_⟩
    · intro u hu
      exact mem_candidates (List.mem_of_mem_take hu)
    · intro hn u hu
      have hlen : (candidates store none).length = store.length := by
        unfold candidates
        exact List.length_mergeSort store
      rw [List.take_of_length_le (by omega)]
      unfold candidates
      rw [List.mem_mergeSort]
      exact hu

/-- Claim C5: the service fetches `limit + 1` records; `has_more` holds
exactly when the `(limit+1)`-th candidate (the sentinel) exists, and the
sentinel is dropped from the returned records (when at most `limit`
records come back, all are kept and `has_more` is false). -/
theorem C5_overfetch_sentinel (store : List User) (params : PaginationParams)
    (cursor : Option (Int × DateTimeUtc)) (hcur : cursorFor params cursor) :
    ∃ resp fetched,
      get_users_paginated store params = Except.ok resp ∧
      find_paginated store cursor (effLimit params.limit + 1) = Except.ok fetched ∧
      fetched = (candidates store cursor).take ((effLimit params.limit).toNat + 1) ∧
      (resp.has_more = true ↔
        (effLimit params.limit).toNat + 1 ≤ (candidates store cursor).length) ∧
      (resp.has_more = true → resp.users = fetched.dropLast) ∧
      (resp.has_more = false → resp.users = fetched) := by
  have h1 := (effLimit_bounds params.limit).1
  have htoNat : (effLimit params.limit + 1).toNat = (effLimit params.limit).toNat + 1 := by
    omega
  have hf : find_paginated store cursor (effLimit params.limit + 1) =
      Except.ok ((candidates store cursor).take ((effLimit params.limit).toNat + 1)) := by
    unfold find_paginated
    rw [htoNat]
  have hmain := core_ok_shape PaginationToken.encode (find_paginated store) params cursor
    ((candidates store cursor).take ((effLimit params.limit).toNat + 1)) hcur hf
  refine ⟨_, _, hmain, hf, rfl, ?_, ?_, ?_⟩
  · show decide _ = true ↔ _
    rw [decide_eq_true_iff, List.length_take]
    omega
  · intro h
    have h2 : decide (((candidates store cursor).take
        ((effLimit params.limit).toNat + 1)).length > (effLimit params.limit).toNat) = true := h
    show (if decide (((candidates store cursor).take
        ((effLimit params.limit).toNat + 1)).length > (effLimit params.limit).toNat) = true
      then ((candidates store cursor).take ((effLimit params.limit).toNat + 1)).dropLast
      else (candidates store cursor).take ((effLimit params.limit).toNat + 1)) =
      ((candidates store cursor).take ((effLimit params.limit).toNat + 1)).dropLast
    rw [if_pos h2]
  · intro h
    have h2 : decide (((candidates store cursor).take
        ((effLimit params.limit).toNat + 1)).length > (effLimit params.limit).toNat) = false := h
    show (if decide (((candidates store cursor).take
        ((effLimit params.limit).toNat + 1)).length > (effLimit params.limit).toNat) = true
      then ((candidates store cursor).take ((effLimit params.limit).toNat + 1)).dropLast
      else (candidates store cursor).take ((effLimit params.limit).toNat + 1)) =
      (candidates store cursor).take ((effLimit params.limit).toNat + 1)
    rw [if_neg (by rw [h2]; exact Bool.false_ne_true)]

/-- Claim C8: in every successful page, `count` equals the number of
returned records and never exceeds the clamped limit; the empty store
yields the empty page `([], none, false, 0)`. -/
theorem C8_count_invariants (store : List User) (params : PaginationParams)
    (cursor : Option (Int × DateTimeUtc)) (hcur : cursorFor params cursor) :
    ∃ resp,
      get_users_paginated store params = Except.ok resp ∧
      resp.count = resp.users.length ∧
      resp.users.length ≤ (effLimit params.limit).toNat ∧
      (store = [] → resp = PaginatedUsersResponse.mk [] none false 0) := by
  have h1 := (effLimit_bounds params.limit).1
  have htoNat : (effLimit params.limit + 1).toNat = (effLimit params.limit).toNat + 1 := by
    omega
  have hf : find_paginated store cursor (effLimit params.limit + 1) =
      Except.ok ((candidates store cursor).take ((effLimit params.limit).toNat + 1)) := by
    unfold find_paginated
    rw [htoNat]
  have hmain := core_ok_shape PaginationToken.encode (find_paginated store) params cursor
    ((candidates store cursor).take ((effLimit params.limit).toNat + 1)) hcur hf
  refine ⟨_, hmain, rfl, ?_, ?_⟩
  · show (if decide (((candidates store cursor).take
        ((effLimit params.limit).toNat + 1)).length > (effLimit params.limit).toNat) = true
      then ((candidates store cursor).take ((effLimit params.limit).toNat + 1)).dropLast
      else (candidates store cursor).take ((effLimit params.limit).toNat + 1)).length ≤
      (effLimit params.limit).toNat
    have hlt : ((candidates store cursor).take
        ((effLimit params.limit).toNat + 1)).length ≤ (effLimit params.limit).toNat + 1 := by
      rw [List.length_take]
      omega
    rcases hm : decide (((candidates store cursor).take
        ((effLimit params.limit).toNat + 1)).length > (effLimit params.limit).toNat) with - | -
    · rw [if_neg (by simp [hm])]
      rw [decide_eq_false_iff_not] at hm
      omega
    · rw [if_pos rfl, List.length_dropLast]
      omega
  · intro hstore
    subst hstore
    have hcand : candidates ([] : List User) cursor = [] := by
      unfold candidates
      rcases cursor with - | c
      · exact List.mergeSort_nil
      · show (List.filter (afterCursor c) []).mergeSort recLe = []
        rw [List.filter_nil]
        exact List.mergeSort_nil
    show PaginatedUsersResponse.mk _ _ _ _ = PaginatedUsersResponse.mk [] none false 0
    rw [show ((candidates ([] : List User) cursor).take
      ((effLimit params.limit).toNat + 1)) = [] from by rw [hcand]; rfl]
    rfl

/-- Claim C6: `next_token` is `Some` exactly when `has_more` is true,
and when present it encodes the `(id, created_at)` of the last record
of the returned page (witnessed by decoding it back). -/
theorem C6_next_token_encodes_last (store : List User) (params : PaginationParams)
    (cursor : Option (Int × DateTimeUtc)) (hcur : cursorFor params cursor)
    (hwf : ∀ u ∈ store, u.wellFormed) :
    ∃ resp,
      get_users_paginated store params = Except.ok resp ∧
      resp.next_token.isSome = resp.has_more ∧
      (resp.has_more = true → ∃ last tok, resp.users.getLast? = some last ∧
        resp.next_token = some tok ∧
        PaginationToken.decode tok = Except.ok (last.id, last.created_at)) := by
  have h1 := (effLimit_bounds params.limit).1
  have htoNat : (effLimit params.limit + 1).toNat = (effLimit params.limit).toNat + 1 := by
    omega
  have hf : find_paginated store cursor (effLimit params.limit + 1) =
      Except.ok ((candidates store cursor).take ((effLimit params.limit).toNat + 1)) := by
    unfold find_paginated
    rw [htoNat]
  have hmain := core_ok_shape PaginationToken.encode (find_paginated store) params cursor
    ((candidates store cursor).take ((effLimit params.limit).toNat + 1)) hcur hf
  have hkey : ∀ hm : decide (((candidates store cursor).take
      ((effLimit params.limit).toNat + 1)).length > (effLimit params.limit).toNat) = true,
      ∃ last, (((candidates store cursor).take
          ((effLimit params.limit).toNat + 1)).dropLast).getLast? = some last ∧
        last.wellFormed := by
    intro hm
    rw [decide_eq_true_iff, List.length_take] at hm
    have hlen : ((((candidates store cursor).take
        ((effLimit params.limit).toNat + 1)).dropLast)).length =
        (effLimit params.limit).toNat := by
      rw [List.length_dropLast, List.length_take]
      omega
    rcases hgl : (((candidates store cursor).take
        ((effLimit params.limit).toNat + 1)).dropLast).getLast? with - | last
    · exfalso
      have hnil := List.getLast?_eq_none_iff.mp hgl
      rw [hnil] at hlen
      simp at hlen
      omega
    · refine ⟨last, rfl, ?_⟩
      have h2 := List.mem_of_getLast?_eq_some hgl
      have h3 := (List.dropLast_sublist _).mem h2
      exact hwf last (mem_candidates (List.mem_of_mem_take h3))
  refine ⟨_, hmain, ?_, ?_⟩
  · show (if decide (((candidates store cursor).take
        ((effLimit params.limit).toNat + 1)).length > (effLimit params.limit).toNat) = true
      then Option.filter (fun t => decide (t ≠ ""))
        (Option.map (fun u =>
          match PaginationToken.encode u.id u.created_at with
          | Except.ok t => t
          | Except.error _ => "")
          ((if decide (((candidates store cursor).take
              ((effLimit params.limit).toNat + 1)).length > (effLimit params.limit).toNat) = true
            then ((candidates store cursor).take ((effLimit params.limit).toNat + 1)).dropLast
            else (candidates store cursor).take
              ((effLimit params.limit).toNat + 1)).getLast?))
      else none).isSome = decide (((candidates store cursor).take
        ((effLimit params.limit).toNat + 1)).length > (effLimit params.limit).toNat)
    rcases hm : decide (((candidates store cursor).take
        ((effLimit params.limit).toNat + 1)).length > (effLimit params.limit).toNat) with - | -
    · rw [if_neg (by simp)]
      rfl
    · obtain ⟨last, hgl, -⟩ := hkey hm
      rw [if_pos rfl, if_pos rfl, hgl]
      simp only [Option.map_some']
      show (Option.filter (fun t => decide (t ≠ "")) (some (String.mk (b64encodeBytes
        (utf8Encode (jsonCursor last.id last.created_at)))))).isSome = true
      rw [show Option.filter (fun t => decide (t ≠ "")) (some (String.mk (b64encodeBytes
          (utf8Encode (jsonCursor last.id last.created_at))))) =
          some (String.mk (b64encodeBytes
            (utf8Encode (jsonCursor last.id last.created_at)))) from by
        simp [Option.filter, encode_token_ne_empty last.id last.created_at
          (String.mk (b64encodeBytes (utf8Encode (jsonCursor last.id last.created_at)))) rfl]]
      rfl
  · intro hmore
    have hm : decide (((candidates store cursor).take
        ((effLimit params.limit).toNat + 1)).length > (effLimit params.limit).toNat) = true :=
      hmore
    obtain ⟨last, hgl, hlwf⟩ := hkey hm
    obtain ⟨hidlo, hidhi, htsv⟩ := hlwf
    refine ⟨last, String.mk (b64encodeBytes
      (utf8Encode (jsonCursor last.id last.created_at))), ?_, ?_, ?_⟩
    · show (if decide (((candidates store cursor).take
          ((effLimit params.limit).toNat + 1)).length > (effLimit params.limit).toNat) = true
        then ((candidates store cursor).take ((effLimit params.limit).toNat + 1)).dropLast
        else (candidates store cursor).take
          ((effLimit params.limit).toNat + 1)).getLast? = some last
      rw [if_pos hm]
      exact hgl
    · show (if decide (((candidates store cursor).take
          ((effLimit params.limit).toNat + 1)).length > (effLimit params.limit).toNat) = true
        then Option.filter (fun t => decide (t ≠ ""))
          (Option.map (fun u =>
            match PaginationToken.encode u.id u.created_at with
            | Except.ok t => t
            | Except.error _ => "")
            ((if decide (((candidates store cursor).take
                ((effLimit params.limit).toNat + 1)).length >
                  (effLimit params.limit).toNat) = true
              then ((candidates store cursor).take ((effLimit params.limit).toNat + 1)).dropLast
              else (candidates store cursor).take
                ((effLimit params.limit).toNat + 1)).getLast?))
        else none) = some (String.mk (b64encodeBytes
          (utf8Encode (jsonCursor last.id last.created_at))))
      rw [if_pos hm, if_pos hm, hgl]
      simp only [Option.map_some']
      show Option.filter (fun t => decide (t ≠ "")) (some (String.mk (b64encodeBytes
          (utf8Encode (jsonCursor last.id last.created_at))))) = _
      simp [Option.filter, encode_token_ne_empty last.id last.created_at
        (String.mk (b64encodeBytes (utf8Encode (jsonCursor last.id last.created_at)))) rfl]
    · exact decode_encode_core last.id last.created_at
        (String.mk (b64encodeBytes (utf8Encode (jsonCursor last.id last.created_at))))
        ⟨hidlo, hidhi⟩ htsv rfl

/-- Concrete two-user store for service-level witnesses. -/
def wStore : List User :=
  [User.mk 1 "a" 20 (DateTimeUtc.mk 2024 1 1 0 0 0 0),
   User.mk 2 "b" 21 (DateTimeUtc.mk 2024 1 2 0 0 0 0)]

/-- Concrete request (no token, limit 1) for service-level witnesses. -/
def wParams : PaginationParams := PaginationParams.mk none (some 1)

/-- Witness for C5 on the two-user store with limit 1 (no token). -/
theorem C5_witness :
    cursorFor wParams none ∧
    ∃ resp fetched,
      get_users_paginated wStore wParams = Except.ok resp ∧
      find_paginated wStore none (effLimit wParams.limit + 1) = Except.ok fetched ∧
      fetched = (candidates wStore none).take ((effLimit wParams.limit).toNat + 1) ∧
      (resp.has_more = true ↔
        (effLimit wParams.limit).toNat + 1 ≤ (candidates wStore none).length) ∧
      (resp.has_more = true → resp.users = fetched.dropLast) ∧
      (resp.has_more = false → resp.users = fetched) :=
  ⟨Or.inl ⟨rfl, rfl⟩, C5_overfetch_sentinel wStore wParams none (Or.inl ⟨rfl, rfl⟩)⟩

/-- Witness for C8 on the two-user store with limit 1 (no token). -/
theorem C8_witness :
    cursorFor wParams none ∧
    ∃ resp,
      get_users_paginated wStore wParams = Except.ok resp ∧
      resp.count = resp.users.length ∧
      resp.users.length ≤ (effLimit wParams.limit).toNat ∧
      (wStore = [] → resp = PaginatedUsersResponse.mk [] none false 0) :=
  ⟨Or.inl ⟨rfl, rfl⟩, C8_count_invariants wStore wParams none (Or.inl ⟨rfl, rfl⟩)⟩

/-- Witness for C6 on the two-user store with limit 1 (no token). -/
theorem C6_witness :
    cursorFor wParams none ∧ (∀ u ∈ wStore, u.wellFormed) ∧
    ∃ resp,
      get_users_paginated wStore wParams = Except.ok resp ∧
      resp.next_token.isSome = resp.has_more ∧
      (resp.has_more = true → ∃ last tok, resp.users.getLast? = some last ∧
        resp.next_token = some tok ∧
        PaginationToken.decode tok = Except.ok (last.id, last.created_at)) :=
  ⟨Or.inl ⟨rfl, rfl⟩, by decide,
    C6_next_token_encodes_last wStore wParams none (Or.inl ⟨rfl, rfl⟩) (by decide)⟩

/-! ### Monotonic coverage of the pagination loop (C4) -/

/-- Packed `(created_at, id)` pagination key of a row: on well-formed
rows the composite ordering of §4.2 is the natural order of this
key. -/
def pageKey (u : User) : Nat :=
  tsKey u.created_at * 4294967296 + (u.id + 2147483648).toNat

theorem recLe_iff_pageKey (a b : User) (ha : a.wellFormed) (hb : b.wellFormed) :
    recLe a b = true ↔ pageKey a ≤ pageKey b := by
  obtain ⟨ha1, ha2, -⟩ := ha
  obtain ⟨hb1, hb2, -⟩ := hb
  simp only [i32Min, i32Max] at ha1 ha2 hb1 hb2
  simp only [recLe, pageKey, Bool.or_eq_true, Bool.and_eq_true, decide_eq_true_iff]
  omega

theorem afterCursor_iff_pageKey (x u : User) (hx : x.wellFormed) (hu : u.wellFormed) :
    afterCursor (x.id, x.created_at) u = decide (pageKey x < pageKey u) := by
  obtain ⟨hx1, hx2, -⟩ := hx
  obtain ⟨hu1, hu2, -⟩ := hu
  simp only [i32Min, i32Max] at hx1 hx2 hu1 hu2
  rcases hd : decide (pageKey x < pageKey u) with - | -
  · rw [decide_eq_false_iff_not] at hd
    unfold pageKey at hd
    simp only [afterCursor, Bool.or_eq_false_iff, Bool.and_eq_false_iff,
      decide_eq_false_iff_not]
    omega
  · rw [decide_eq_true_iff] at hd
    unfold pageKey at hd
    simp only [afterCursor, Bool.or_eq_true, Bool.and_eq_true, decide_eq_true_iff]
    omega

theorem pairwise_pageKey_lt (l : List User) (hwf : ∀ u ∈ l, u.wellFormed)
    (hs : List.Pairwise (fun a b => recLe a b = true) l)
    (hne : List.Pairwise (fun a b : User => a.id ≠ b.id) l) :
    List.Pairwise (fun a b => pageKey a < pageKey b) l := by
  refine List.Pairwise.imp_of_mem ?_ (hs.and hne)
  intro a b ha hb hr
  obtain ⟨h1, h2⟩ := hr
  have hKle := (recLe_iff_pageKey a b (hwf a ha) (hwf b hb)).mp h1
  obtain ⟨ha1, ha2, -⟩ := hwf a ha
  obtain ⟨hb1, hb2, -⟩ := hwf b hb
  simp only [i32Min, i32Max] at ha1 ha2 hb1 hb2
  unfold pageKey at hKle ⊢
  omega

theorem eq_of_perm_of_pageKey_sorted {l1 l2 : List User} (hp : l1.Perm l2)
    (h1 : List.Pairwise (fun a b => pageKey a < pageKey b) l1)
    (h2 : List.Pairwise (fun a b => pageKey a < pageKey b) l2) : l1 = l2 :=
  @List.eq_of_perm_of_sorted User (fun a b => pageKey a < pageKey b)
    ⟨fun _ _ hab hba => absurd (Nat.lt_trans hab hba) (Nat.lt_irrefl _)⟩ l1 l2 hp h1 h2

/-- In a strictly key-sorted list, the records strictly after the last
record of the first `m` entries are exactly the entries from position
`m` on. -/
theorem filter_pageKey_drop :
    ∀ (l : List User) (m : Nat) (x : User),
      List.Pairwise (fun a b => pageKey a < pageKey b) l →
      (l.take m).getLast? = some x →
      l.filter (fun u => decide (pageKey x < pageKey u)) = l.drop m
  | [], m, x, _, hgl => by
    rw [List.take_nil] at hgl
    exact Option.noConfusion hgl
  | t :: l, 0, x, _, hgl => by
    exact Option.noConfusion hgl
  | t :: l, m + 1, x, hK, hgl => by
    rw [List.take_succ_cons] at hgl
    rw [List.pairwise_cons] at hK
    obtain ⟨hKt, hKl⟩ := hK
    rcases htn : l.take m with - | ⟨y, ys⟩
    · rw [htn, List.getLast?_singleton] at hgl
      obtain rfl : t = x := Option.some.inj hgl
      rcases List.take_eq_nil_iff.mp htn with rfl | rfl
      · rw [List.filter_cons_of_neg (by simp)]
        rw [List.drop_succ_cons, List.drop_zero]
        refine List.filter_eq_self.mpr ?_
        intro u hu
        exact decide_eq_true (hKt u hu)
      · rw [List.filter_cons_of_neg (by simp)]
        rw [List.drop_succ_cons, List.drop_nil, List.filter_nil]
    · rw [htn, List.getLast?_cons_cons, ← htn] at hgl
      have hxl : x ∈ l := List.mem_of_mem_take (List.mem_of_getLast?_eq_some hgl)
      have hlt : pageKey t < pageKey x := hKt x hxl
      rw [List.filter_cons_of_neg (by simp only [decide_eq_true_eq]; omega)]
      rw [List.drop_succ_cons]
      exact filter_pageKey_drop l m x hKl hgl

theorem candidates_pairwise_id_ne (store : List User)
    (cursor : Option (Int × DateTimeUtc))
    (hne : store.Pairwise (fun a b : User => a.id ≠ b.id)) :
    (candidates store cursor).Pairwise (fun a b : User => a.id ≠ b.id) := by
  unfold candidates
  refine (List.Perm.pairwise_iff (fun h => h.symm) (List.mergeSort_perm _ _)).mpr ?_
  rcases cursor with - | c
  · exact hne
  · exact List.Pairwise.sublist (List.filter_sublist _) hne

theorem candidates_pageKey_sorted (store : List User)
    (cursor : Option (Int × DateTimeUtc))
    (hwf : ∀ u ∈ store, u.wellFormed)
    (hne : store.Pairwise (fun a b : User => a.id ≠ b.id)) :
    (candidates store cursor).Pairwise (fun a b => pageKey a < pageKey b) :=
  pairwise_pageKey_lt _ (fun u hu => hwf u (mem_candidates hu))
    (candidates_sorted store cursor) (candidates_pairwise_id_ne store cursor hne)

theorem paginateGo_succ (store : List User) (lim : Option Int) (fuel : Nat)
    (tok : Option String) :
    paginateGo store lim (fuel + 1) tok =
      match get_users_paginated store (PaginationParams.mk tok lim) with
      | Except.error _ => []
      | Except.ok resp =>
        resp.users ++ (if resp.has_more then
          match resp.next_token with
          | some t => paginateGo store lim fuel (some t)
          | none => []
        else []) := rfl

/-- One page of the service over the candidate list `R` of its cursor:
a short page is returned whole with no continuation, a long page is cut
at the limit and continued with the token of its last record. -/
theorem page_step (store : List User) (lim : Option Int) (tok : Option String)
    (cursor : Option (Int × DateTimeUtc)) (R : List User)
    (hcur : cursorFor (PaginationParams.mk tok lim) cursor)
    (hcand : candidates store cursor = R) :
    (R.length ≤ (effLimit lim).toNat →
      get_users_paginated store (PaginationParams.mk tok lim) =
        Except.ok (PaginatedUsersResponse.mk R none false R.length)) ∧
    (∀ last, (effLimit lim).toNat < R.length →
      (R.take (effLimit lim).toNat).getLast? = some last →
      get_users_paginated store (PaginationParams.mk tok lim) =
        Except.ok (PaginatedUsersResponse.mk (R.take (effLimit lim).toNat)
          (some (String.mk (b64encodeBytes (utf8Encode
            (jsonCursor last.id last.created_at)))))
          true (R.take (effLimit lim).toNat).length)) := by
  have h1 := (effLimit_bounds lim).1
  have htoNat : (effLimit lim + 1).toNat = (effLimit lim).toNat + 1 := by
    omega
  have hf : find_paginated store cursor (effLimit lim + 1) =
      Except.ok (R.take ((effLimit lim).toNat + 1)) := by
    unfold find_paginated
    rw [htoNat, hcand]
  have hmain := core_ok_shape PaginationToken.encode (find_paginated store)
    (PaginationParams.mk tok lim) cursor (R.take ((effLimit lim).toNat + 1)) hcur hf
  constructor
  · intro hshort
    have htake : R.take ((effLimit lim).toNat + 1) = R :=
      List.take_of_length_le (by omega)
    rw [htake] at hmain
    have hm : decide (R.length > (effLimit lim).toNat) = false :=
      decide_eq_false (by omega)
    rw [hm] at hmain
    rw [if_neg (by simp : ¬((false : Bool) = true))] at hmain
    rw [if_neg (by simp : ¬((false : Bool) = true))] at hmain
    exact hmain
  · intro last hlong hgl
    have hm : decide ((R.take ((effLimit lim).toNat + 1)).length >
        (effLimit lim).toNat) = true :=
      decide_eq_true (by rw [List.length_take]; omega)
    rw [hm] at hmain
    rw [if_pos (rfl : (true : Bool) = true)] at hmain
    rw [if_pos (rfl : (true : Bool) = true)] at hmain
    have hdrop : (R.take ((effLimit lim).toNat + 1)).dropLast =
        R.take (effLimit lim).toNat := by
      rw [List.dropLast_eq_take, List.length_take, List.take_take]
      rw [show min (min ((effLimit lim).toNat + 1) R.length - 1)
        ((effLimit lim).toNat + 1) = (effLimit lim).toNat from by omega]
    rw [hdrop, hgl] at hmain
    simp only [Option.map_some'] at hmain
    have hmain2 : get_users_paginated store (PaginationParams.mk tok lim) =
        Except.ok (PaginatedUsersResponse.mk (R.take (effLimit lim).toNat)
          (Option.filter (fun t => decide (t ≠ ""))
            (some (String.mk (b64encodeBytes (utf8Encode
              (jsonCursor last.id last.created_at))))))
          true (R.take (effLimit lim).toNat).length) := hmain
    rw [show Option.filter (fun t => decide (t ≠ ""))
        (some (String.mk (b64encodeBytes (utf8Encode
          (jsonCursor last.id last.created_at))))) =
        some (String.mk (b64encodeBytes (utf8Encode
          (jsonCursor last.id last.created_at)))) from by
      simp [Option.filter, encode_token_ne_empty last.id last.created_at
        (String.mk (b64encodeBytes (utf8Encode
          (jsonCursor last.id last.created_at)))) rfl]] at hmain2
    exact hmain2

/-- The pagination loop invariant: a request whose cursor stands for
the first `m` records of the full ordered listing emits exactly the
remaining records. -/
theorem go_spec (store : List User) (lim : Option Int)
    (hwf : ∀ u ∈ store, u.wellFormed)
    (hids : store.Pairwise (fun a b : User => a.id ≠ b.id)) :
    ∀ (fuel m : Nat) (tok : Option String) (cursor : Option (Int × DateTimeUtc)),
      cursorFor (PaginationParams.mk tok lim) cursor →
      candidates store cursor = (candidates store none).drop m →
      (candidates store none).length - m < fuel →
      paginateGo store lim fuel tok = (candidates store none).drop m := by
  have hTK : (candidates store none).Pairwise (fun a b => pageKey a < pageKey b) :=
    candidates_pageKey_sorted store none hwf hids
  have hLn1 : 1 ≤ (effLimit lim).toNat := by
    have := (effLimit_bounds lim).1
    omega
  intro fuel
  induction fuel with
  | zero =>
    intro m tok cursor hcur hcand hfuel
    exact absurd hfuel (by omega)
  | succ fuel ih =>
    intro m tok cursor hcur hcand hfuel
    obtain ⟨hstep1, hstep2⟩ := page_step store lim tok cursor
      ((candidates store none).drop m) hcur hcand
    by_cases hcase : ((candidates store none).drop m).length ≤ (effLimit lim).toNat
    · rw [paginateGo_succ, hstep1 hcase]
      show (candidates store none).drop m ++
        (if (false : Bool) = true then
          (match (none : Option String) with
            | some t => paginateGo store lim fuel (some t)
            | none => ([] : List User))
         else []) = (candidates store none).drop m
      rw [if_neg (by simp : ¬((false : Bool) = true)), List.append_nil]
    · push_neg at hcase
      rcases hgl : (((candidates store none).drop m).take (effLimit lim).toNat).getLast?
        with - | last
      · exfalso
        have hnil := List.getLast?_eq_none_iff.mp hgl
        have hlen := congrArg List.length hnil
        rw [List.length_take, List.length_nil] at hlen
        omega
      · set tk : String := String.mk (b64encodeBytes (utf8Encode
          (jsonCursor last.id last.created_at))) with htk
        have hlast_mem : last ∈ store := by
          have h2 := List.mem_of_getLast?_eq_some hgl
          have h3 := List.mem_of_mem_take h2
          exact mem_candidates ((List.drop_sublist _ _).mem h3)
        have hlwf : last.wellFormed := hwf last hlast_mem
        have hdec : PaginationToken.decode tk = Except.ok (last.id, last.created_at) :=
          decode_encode_core last.id last.created_at tk ⟨hlwf.1, hlwf.2.1⟩ hlwf.2.2 rfl
        have hcur2 : cursorFor (PaginationParams.mk (some tk) lim)
            (some (last.id, last.created_at)) :=
          Or.inr ⟨tk, (last.id, last.created_at), rfl, hdec, rfl⟩
        have hTp : (candidates store none).Perm store := by
          show (store.mergeSort recLe).Perm store
          exact List.mergeSort_perm store recLe
        have hperm1 : (candidates store (some (last.id, last.created_at))).Perm
            (store.filter (afterCursor (last.id, last.created_at))) := by
          show ((store.filter (afterCursor (last.id, last.created_at))).mergeSort
            recLe).Perm _
          exact List.mergeSort_perm _ _
        have hperm2 : (store.filter (afterCursor (last.id, last.created_at))).Perm
            ((candidates store none).filter (afterCursor (last.id, last.created_at))) :=
          (hTp.filter _).symm
        have hcongr : (candidates store none).filter
            (afterCursor (last.id, last.created_at)) =
            (candidates store none).filter (fun u => decide (pageKey last < pageKey u)) :=
          List.filter_congr (fun u hu =>
            afterCursor_iff_pageKey last u hlwf (hwf u (mem_candidates hu)))
        have hgl2 : ((candidates store none).take (m + (effLimit lim).toNat)).getLast? =
            some last := by
          rw [List.take_add, List.getLast?_append, hgl]
          rfl
        have hsuffix := filter_pageKey_drop (candidates store none)
          (m + (effLimit lim).toNat) last hTK hgl2
        have hcand2 : candidates store (some (last.id, last.created_at)) =
            (candidates store none).drop (m + (effLimit lim).toNat) := by
          have h3 : (candidates store none).filter
              (afterCursor (last.id, last.created_at)) =
              (candidates store none).drop (m + (effLimit lim).toNat) := by
            rw [hcongr]
            exact hsuffix
          rw [h3] at hperm2
          exact eq_of_perm_of_pageKey_sorted (hperm1.trans hperm2)
            (candidates_pageKey_sorted store _ hwf hids)
            (List.Pairwise.sublist (List.drop_sublist _ _) hTK)
        have hih := ih (m + (effLimit lim).toNat) (some tk)
          (some (last.id, last.created_at)) hcur2 hcand2
          (by rw [List.length_drop] at hcase; omega)
        rw [paginateGo_succ, hstep2 last hcase hgl]
        show ((candidates store none).drop m).take (effLimit lim).toNat ++
          (if (true : Bool) = true then
            (match (some tk : Option String) with
              | some t => paginateGo store lim fuel (some t)
              | none => ([] : List User))
           else []) = (candidates store none).drop m
        rw [if_pos (rfl : (true : Bool) = true)]
        show ((candidates store none).drop m).take (effLimit lim).toNat ++
          paginateGo store lim fuel (some tk) = (candidates store none).drop m
        rw [hih]
        rw [show (candidates store none).drop (m + (effLimit lim).toNat) =
          ((candidates store none).drop m).drop (effLimit lim).toNat from
          (List.drop_drop _ _ _).symm]
        exact List.take_append_drop _ _

/-- Claim C4: over any well-formed store with pairwise-distinct ids,
paginating from no token with any limit until `has_more` is false
yields every record of the store exactly once, in ascending
`(created_at, id)` order, regardless of the limit. -/
theorem C4_monotonic_coverage (store : List User) (lim : Option Int)
    (hwf : ∀ u ∈ store, u.wellFormed)
    (hids : store.Pairwise (fun a b : User => a.id ≠ b.id)) :
    (paginateAll store lim).Perm store ∧
      List.Pairwise (fun a b => recLe a b = true) (paginateAll store lim) := by
  have hlen : (candidates store none).length = store.length := by
    show (store.mergeSort recLe).length = store.length
    simp
  have hgo := go_spec store lim hwf hids (store.length + 1) 0 none none
    (Or.inl ⟨rfl, rfl⟩) (by rw [List.drop_zero]) (by omega)
  unfold paginateAll
  rw [hgo, List.drop_zero]
  constructor
  · show (store.mergeSort recLe).Perm store
    exact List.mergeSort_perm store recLe
  · exact candidates_sorted store none

/-- Witness for C4 on the two-user store with limit 1: two pages of one
record each. -/
theorem C4_witness :
    (∀ u ∈ wStore, u.wellFormed) ∧
    wStore.Pairwise (fun a b : User => a.id ≠ b.id) ∧
    ((paginateAll wStore (some 1)).Perm wStore ∧
      List.Pairwise (fun a b => recLe a b = true) (paginateAll wStore (some 1))) :=
  ⟨by decide, by decide, C4_monotonic_coverage wStore (some 1) (by decide) (by decide)⟩

/-- Claim C1: for every valid pair of an `i32` id and a UTC timestamp,
decoding the token produced by encoding that pair returns exactly the
same pair: `decode(encode(id, timestamp)) == (id, timestamp)`. -/
theorem C1_token_roundtrip (id : Int) (ts : DateTimeUtc) (tok : String)
    (hid : i32Min ≤ id ∧ id ≤ i32Max) (hts : ts.valid)
    (henc : PaginationToken.encode id ts = Except.ok tok) :
    PaginationToken.decode tok = Except.ok (id, ts) :=
  decode_encode_core id ts tok hid hts henc

set_option maxRecDepth 100000 in
set_option maxHeartbeats 4000000 in
/-- Witness for C1 at `id = 123`, `ts = 2024-01-15T10:30:00Z`. -/
theorem C1_witness :
    (i32Min ≤ (123 : Int) ∧ (123 : Int) ≤ i32Max) ∧
      DateTimeUtc.valid ⟨2024, 1, 15, 10, 30, 0, 0⟩ ∧
      PaginationToken.encode 123 ⟨2024, 1, 15, 10, 30, 0, 0⟩ =
        Except.ok "eyJpZCI6MTIzLCJ0aW1lc3RhbXAiOiIyMDI0LTAxLTE1VDEwOjMwOjAwWiJ9" ∧
      PaginationToken.decode "eyJpZCI6MTIzLCJ0aW1lc3RhbXAiOiIyMDI0LTAxLTE1VDEwOjMwOjAwWiJ9" =
        Except.ok (123, ⟨2024, 1, 15, 10, 30, 0, 0⟩) :=
  ⟨⟨by decide, by decide⟩, by decide, by decide,
    C1_token_roundtrip 123 ⟨2024, 1, 15, 10, 30, 0, 0⟩
      "eyJpZCI6MTIzLCJ0aW1lc3RhbXAiOiIyMDI0LTAxLTE1VDEwOjMwOjAwWiJ9"
      ⟨by decide, by decide⟩ (by decide) (by decide)⟩

set_option maxRecDepth 100000 in
set_option maxHeartbeats 8000000 in
/-- Counterexample to C2 as stated: the base64url encoding of
`\x7b"timestamp":"2024-01-15T10:30:00Z","id":123\x7d` — the canonical
payload with its JSON fields reordered — is not produced by `encode`
(which always emits `id` first), yet `decode` accepts it instead of
returning `InvalidToken`. -/
theorem C2_counterexample :
    PaginationToken.decode "eyJ0aW1lc3RhbXAiOiIyMDI0LTAxLTE1VDEwOjMwOjAwWiIsImlkIjoxMjN9" =
        Except.ok (123, ⟨2024, 1, 15, 10, 30, 0, 0⟩) ∧
      ∀ id ts, PaginationToken.encode id ts ≠
        Except.ok "eyJ0aW1lc3RhbXAiOiIyMDI0LTAxLTE1VDEwOjMwOjAwWiIsImlkIjoxMjN9" := by
  constructor
  · decide
  · intro id ts h
    unfold PaginationToken.encode at h
    have h2 : String.mk (b64encodeBytes (utf8Encode (jsonCursor id ts))) =
        "eyJ0aW1lc3RhbXAiOiIyMDI0LTAxLTE1VDEwOjMwOjAwWiIsImlkIjoxMjN9" := by
      injection h
    have h3 : b64encodeBytes (utf8Encode (jsonCursor id ts)) =
        String.data "eyJ0aW1lc3RhbXAiOiIyMDI0LTAxLTE1VDEwOjMwOjAwWiIsImlkIjoxMjN9" := by
      rw [← h2]
    have hb : b64decodeChars
        (String.data "eyJ0aW1lc3RhbXAiOiIyMDI0LTAxLTE1VDEwOjMwOjAwWiIsImlkIjoxMjN9") =
        some (utf8Encode (jsonCursor id ts)) := by
      rw [← h3]
      exact b64decode_b64encode _ (utf8Encode_lt_256 _)
    have hc : b64decodeChars
        (String.data "eyJ0aW1lc3RhbXAiOiIyMDI0LTAxLTE1VDEwOjMwOjAwWiIsImlkIjoxMjN9") =
        some (utf8Encode
          (String.data "\x7b\"timestamp\":\"2024-01-15T10:30:00Z\",\"id\":123\x7d")) := by
      decide
    have h7 : utf8Encode (jsonCursor id ts) =
        utf8Encode (String.data "\x7b\"timestamp\":\"2024-01-15T10:30:00Z\",\"id\":123\x7d") :=
      Option.some.inj (hb.symm.trans hc)
    have h8 : jsonCursor id ts =
        String.data "\x7b\"timestamp\":\"2024-01-15T10:30:00Z\",\"id\":123\x7d" := by
      have e1 := utf8Decode_utf8Encode (jsonCursor id ts)
      rw [h7, utf8Decode_utf8Encode] at e1
      exact (Option.some.inj e1).symm
    have h9 : (jsonCursor id ts)[2]? = some 't' := by
      rw [h8]
      decide
    have h10 : (jsonCursor id ts)[2]? = some 'i' := by
      rw [jsonCursor_cons]
      rfl
    rw [h10] at h9
    exact absurd h9 (by decide)

/-- Claim C2, amended: `decode` is total and the only error it ever
returns is `InvalidToken` — every string malformed at the base64,
UTF-8, JSON or field layer is a normal `InvalidToken` error case — but
not every string outside the image of `encode` is rejected (see the
counterexample: a token with reordered JSON fields decodes
successfully). -/
theorem C2_decode_total (s : String) :
    (∃ p, PaginationToken.decode s = Except.ok p) ∨
      PaginationToken.decode s = Except.error TokenError.InvalidToken := by
  cases hd : PaginationToken.decode s with
  | ok p => exact Or.inl ⟨p, rfl⟩
  | error e =>
    cases e with
    | InvalidToken => exact Or.inr rfl
    | EncodingError msg =>
      exfalso
      unfold PaginationToken.decode at hd
      repeat' split at hd
      all_goals simp at hd

/-- Claim C7: the effective page size is clamped into `[1, 200]`,
defaults to 200 when unspecified, and the service behaves exactly as if
the clamped limit had been requested (limit 0 and -5 behave as limit 1,
limit 10000 behaves as limit 200). -/
theorem C7_limit_clamp :
    (∀ l : Option Int, 1 ≤ effLimit l ∧ effLimit l ≤ 200) ∧
      effLimit none = 200 ∧ effLimit (some 0) = 1 ∧ effLimit (some (-5)) = 1 ∧
      effLimit (some 10000) = 200 ∧
      ∀ (store : List User) (tok : Option String) (l : Option Int),
        get_users_paginated store (PaginationParams.mk tok (some (effLimit l))) =
          get_users_paginated store (PaginationParams.mk tok l) := by
  refine ⟨?_, by decide, by decide, by decide, by decide, ?_⟩
  · intro l
    rcases l with - | x <;> simp only [effLimit, Option.getD_some, Option.getD_none] <;> omega
  · intro store tok l
    have h : effLimit (some (effLimit l)) = effLimit l := by
      rcases l with - | x <;> simp only [effLimit, Option.getD_some, Option.getD_none] <;> omega
    unfold get_users_paginated get_users_paginated_core
    rw [show (PaginationParams.mk tok (some (effLimit l))).limit = some (effLimit l) from rfl,
      show (PaginationParams.mk tok l).limit = l from rfl, h]

/-- Claim C9: a malformed `next_token` makes the service fail with
`InvalidToken` — for every record-store fetch whatsoever, so before and
independent of any store access — and the controller maps it to 400; a
record-store failure propagates unchanged (no retry, no rewrapping) and
`DatabaseError` maps to 500. -/
theorem C9_error_mapping :
    (∀ (fetch : Option (Int × DateTimeUtc) → Int → Except UserError (List User))
        (params : PaginationParams) (tok : String) (e : TokenError),
      params.next_token = some tok → PaginationToken.decode tok = Except.error e →
        get_users_paginated_core PaginationToken.encode fetch params =
            Except.error UserError.InvalidToken ∧
          get_all_users_status
            (get_users_paginated_core PaginationToken.encode fetch params) = 400) ∧
    (∀ (fetch : Option (Int × DateTimeUtc) → Int → Except UserError (List User))
        (params : PaginationParams) (e : UserError),
      params.next_token = none → fetch none (effLimit params.limit + 1) = Except.error e →
        get_users_paginated_core PaginationToken.encode fetch params = Except.error e) ∧
    (∀ (fetch : Option (Int × DateTimeUtc) → Int → Except UserError (List User))
        (params : PaginationParams) (tok : String) (c : Int × DateTimeUtc) (e : UserError),
      params.next_token = some tok → PaginationToken.decode tok = Except.ok c →
        fetch (some c) (effLimit params.limit + 1) = Except.error e →
        get_users_paginated_core PaginationToken.encode fetch params = Except.error e) ∧
    (∀ msg, get_all_users_status (Except.error (UserError.DatabaseError msg)) = 500) := by
  refine ⟨?_, ?_, ?_, fun msg => rfl⟩
  · intro fetch params tok e htok hdec
    have hmain : get_users_paginated_core PaginationToken.encode fetch params =
        Except.error UserError.InvalidToken := by
      simp only [get_users_paginated_core, htok, hdec]
    exact ⟨hmain, by rw [hmain]; rfl⟩
  · intro fetch params e htok hf
    simp only [get_users_paginated_core, htok, hf]
  · intro fetch params tok c e htok hdec hf
    simp only [get_users_paginated_core, htok, hdec, hf]

set_option maxRecDepth 100000 in
set_option maxHeartbeats 1600000 in
/-- Witness for C9: a garbage token yields `InvalidToken`/400 for an
arbitrary fetch, and a failing store propagates its `DatabaseError`
unchanged. -/
theorem C9_witness :
    ((PaginationParams.mk (some "not-base64!!") (some 2)).next_token = some "not-base64!!" ∧
      PaginationToken.decode "not-base64!!" = Except.error TokenError.InvalidToken ∧
      get_users_paginated_core PaginationToken.encode (fun _ _ => Except.ok [])
          (PaginationParams.mk (some "not-base64!!") (some 2)) =
        Except.error UserError.InvalidToken ∧
      get_all_users_status
        (get_users_paginated_core PaginationToken.encode (fun _ _ => Except.ok [])
          (PaginationParams.mk (some "not-base64!!") (some 2))) = 400) ∧
    ((PaginationParams.mk none (some 2)).next_token = none ∧
      (fun (_ : Option (Int × DateTimeUtc)) (_ : Int) =>
          (Except.error (UserError.DatabaseError "boom") : Except UserError (List User))) none
          (effLimit (PaginationParams.mk none (some 2)).limit + 1) =
        Except.error (UserError.DatabaseError "boom") ∧
      get_users_paginated_core PaginationToken.encode
          (fun _ _ => Except.error (UserError.DatabaseError "boom"))
          (PaginationParams.mk none (some 2)) =
        Except.error (UserError.DatabaseError "boom") ∧
      get_all_users_status (Except.error (UserError.DatabaseError "boom")) = 500) := by
  constructor
  · refine ⟨rfl, by decide, ?_, ?_⟩
    · exact (C9_error_mapping.1 (fun _ _ => Except.ok [])
        (PaginationParams.mk (some "not-base64!!") (some 2)) "not-base64!!"
        TokenError.InvalidToken rfl (by decide)).1
    · exact (C9_error_mapping.1 (fun _ _ => Except.ok [])
        (PaginationParams.mk (some "not-base64!!") (some 2)) "not-base64!!"
        TokenError.InvalidToken rfl (by decide)).2
  · refine ⟨rfl, rfl, ?_, C9_error_mapping.2.2.2 "boom"⟩
    exact C9_error_mapping.2.1 (fun _ _ => Except.error (UserError.DatabaseError "boom"))
      (PaginationParams.mk none (some 2)) (UserError.DatabaseError "boom") rfl rfl

/-- Claim C10 (implicit): the implementation resolves the spec's flagged
ambiguity by silent degradation — with an encoder that fails (the
service body's `unwrap_or_else(|_| String::new())` followed by the
non-empty filter), a page with more records than the limit still
succeeds with the trimmed records, `has_more = true` and
`next_token = None`; the encoding failure is never surfaced. -/
theorem C10_silent_degradation (msg : String)
    (fetch : Option (Int × DateTimeUtc) → Int → Except UserError (List User))
    (params : PaginationParams) (users : List User)
    (htok : params.next_token = none)
    (hf : fetch none (effLimit params.limit + 1) = Except.ok users)
    (hlen : users.length > (effLimit params.limit).toNat) :
    get_users_paginated_core (fun _ _ => Except.error (TokenError.EncodingError msg)) fetch
        params =
      Except.ok (PaginatedUsersResponse.mk users.dropLast none true users.dropLast.length) := by
  simp only [get_users_paginated_core, htok, hf]
  have hm : decide (users.length > (effLimit params.limit).toNat) = true := decide_eq_true hlen
  rw [hm]
  simp only [if_true]
  congr 1
  rcases users.dropLast.getLast? with - | u
  · rfl
  · rfl

set_option maxRecDepth 100000 in
/-- Witness for C10 on a concrete two-record store slice with limit 1. -/
theorem C10_witness :
    ((PaginationParams.mk none (some 1)).next_token = none ∧
      (fun (_ : Option (Int × DateTimeUtc)) (_ : Int) =>
          (Except.ok [User.mk 1 "a" 20 ⟨2024, 1, 1, 0, 0, 0, 0⟩,
            User.mk 2 "b" 21 ⟨2024, 1, 2, 0, 0, 0, 0⟩] : Except UserError (List User))) none
          (effLimit (PaginationParams.mk none (some 1)).limit + 1) =
        Except.ok [User.mk 1 "a" 20 ⟨2024, 1, 1, 0, 0, 0, 0⟩,
          User.mk 2 "b" 21 ⟨2024, 1, 2, 0, 0, 0, 0⟩] ∧
      ([User.mk 1 "a" 20 ⟨2024, 1, 1, 0, 0, 0, 0⟩,
          User.mk 2 "b" 21 ⟨2024, 1, 2, 0, 0, 0, 0⟩] : List User).length >
        (effLimit (PaginationParams.mk none (some 1)).limit).toNat) ∧
    get_users_paginated_core (fun _ _ => Except.error (TokenError.EncodingError "fail"))
        (fun _ _ => Except.ok [User.mk 1 "a" 20 ⟨2024, 1, 1, 0, 0, 0, 0⟩,
          User.mk 2 "b" 21 ⟨2024, 1, 2, 0, 0, 0, 0⟩])
        (PaginationParams.mk none (some 1)) =
      Except.ok (PaginatedUsersResponse.mk [User.mk 1 "a" 20 ⟨2024, 1, 1, 0, 0, 0, 0⟩] none true
        1) := by
  refine ⟨⟨rfl, rfl, by decide⟩, ?_⟩
  have h := C10_silent_degradation "fail"
    (fun _ _ => Except.ok [User.mk 1 "a" 20 ⟨2024, 1, 1, 0, 0, 0, 0⟩,
      User.mk 2 "b" 21 ⟨2024, 1, 2, 0, 0, 0, 0⟩])
    (PaginationParams.mk none (some 1))
    [User.mk 1 "a" 20 ⟨2024, 1, 1, 0, 0, 0, 0⟩, User.mk 2 "b" 21 ⟨2024, 1, 2, 0, 0, 0, 0⟩]
    rfl rfl (by decide)
  simpa using h

end RustKickstart
